import Mathlib

/-!
RasterizedFlattenPolygonsOverlay: height codec and polygon rasterizer

A shallow embedding of `RasterizedFlattenPolygonsOverlay.cpp`.

* `uint32_t` values are natural numbers; every operation that can leave the
  32-bit range is followed by `% 2 ^ 32`.
* A `float` is represented by its IEEE-754 bit pattern (a natural number below
  `2 ^ 32`); `float32Value` reads the rational number a bit pattern denotes.
* `double` coordinates are rationals (exact arithmetic).
* An out-of-bounds vector access or a loop that never exits has no result:
  the embedded functions return `Option`.
-/

namespace Cesium3DTilesSelection

/-! ## Height codec -/

/-- The C++ comparison `value != 0` on a `float`, read off the bit pattern:
only `+0.0` and `-0.0` compare equal to zero (a NaN compares unequal). -/
def floatNeZero (float32Bits : Nat) : Bool :=
  float32Bits &&& 0x7FFFFFFF != 0

/-- Embedding of `float32ToFloat24`; the argument is the bit pattern of `value`. -/
def float32ToFloat24 (float32Bits : Nat) : Nat :=
  let sign := (float32Bits >>> 31) &&& 0x1
  let exponent := (float32Bits >>> 23) &&& 0xFF
  let mantissa := float32Bits &&& 0x7FFFFF
  -- `exponent - 127 + 63` in `uint32_t` arithmetic
  let exponent := if floatNeZero float32Bits then (exponent + 2 ^ 32 - 127 + 63) % 2 ^ 32 else exponent
  let em : Nat × Nat :=
    if exponent > 127 then (127, 0xFFFFF)
    else if exponent < 0 then (0, 0)
    else (exponent, mantissa)
  ((sign <<< 23) ||| (em.1 <<< 15) ||| (em.2 >>> 8)) % 2 ^ 32

/-- The `while ((mantissa & 0x800000) == 0)` loop of `float24ToFloat32`, on the
pair `(mantissa, exponent)` of `uint32_t` variables. `none` when the loop has
not exited after `fuel` iterations. -/
def normalizeLoop : Nat → Nat → Nat → Option (Nat × Nat)
  | 0, _, _ => none
  | fuel + 1, mantissa, exponent =>
    if mantissa &&& 0x800000 = 0 then
      normalizeLoop fuel ((mantissa <<< 1) % 2 ^ 32) ((exponent + 2 ^ 32 - 1) % 2 ^ 32)
    else some (mantissa, exponent)

/-- Embedding of `float24ToFloat32`; the result is the bit pattern of the
returned `float`, or `none` when the normalisation loop does not exit within
`fuel` iterations. -/
def float24ToFloat32 (fuel : Nat) (float24Bits : Nat) : Option Nat :=
  let sign := (float24Bits >>> 23) &&& 0x1
  let exponent := (float24Bits >>> 15) &&& 0xFF
  let mantissa := ((float24Bits &&& 0x7FFF) <<< 8) % 2 ^ 32
  let float32Bits := 0
  if exponent = 0 then
    if mantissa ≠ 0 then
      let shift := 23 - 15
      let mantissa := (mantissa <<< shift) % 2 ^ 32
      match normalizeLoop fuel mantissa exponent with
      | none => none
      | some (mantissa, _) =>
        -- `mantissa &= 0x7FFFFF` is the last statement of the branch:
        -- `float32Bits` is not assigned
        let _mantissa := mantissa &&& 0x7FFFFF
        some float32Bits
    else some float32Bits
  else if exponent = 127 then
    some (((sign <<< 31) ||| 0x7F800000 ||| mantissa) % 2 ^ 32)
  else
    let exponent := (exponent + (127 - 63)) % 2 ^ 32
    some (((sign <<< 31) ||| (exponent <<< 23) ||| mantissa) % 2 ^ 32)

/-- The rational number denoted by a float32 bit pattern under IEEE-754
(`none` for infinities and NaNs). -/
def float32Value (bits : Nat) : Option ℚ :=
  let sign : Nat := bits / 2 ^ 31 % 2
  let exponent : Nat := bits / 2 ^ 23 % 256
  let mantissa : Nat := bits % 2 ^ 23
  if exponent = 255 then none
  else if exponent = 0 then
    some ((-1) ^ sign * ((mantissa : ℚ) / 2 ^ 23) * 2 ^ (-126 : ℤ))
  else
    some ((-1) ^ sign * (1 + (mantissa : ℚ) / 2 ^ 23) * 2 ^ ((exponent : ℤ) - 127))

/-- Sign bit of a float32 bit pattern. -/
def float32Sign (bits : Nat) : Nat := bits / 2 ^ 31 % 2

/-- Biased exponent field of a float32 bit pattern. -/
def float32Exponent (bits : Nat) : Nat := bits / 2 ^ 23 % 256

/-- The round-trip property of the codec at the bit pattern `bits` of `x`:
decoding the encoding returns a float that denotes a number of the same sign
within relative error `2 ^ (-7)` of `x`. -/
def RoundTripWithin (bits : Nat) : Prop :=
  ∃ fuel r x y, float24ToFloat32 fuel (float32ToFloat24 bits) = some r ∧
    float32Value bits = some x ∧ float32Value r = some y ∧
    float32Sign r = float32Sign bits ∧ |y - x| ≤ 2 ^ (-7 : ℤ) * |x|

/-! ## Data model of the rasterizer -/

/-- Exact-arithmetic counterpart of `glm::dvec2`. -/
structure DVec2 where
  x : ℚ
  y : ℚ
  deriving DecidableEq, Repr

/-- The four bounds of a `CesiumGeospatial::GlobeRectangle`. -/
structure GlobeRectangle where
  west : ℚ
  south : ℚ
  east : ℚ
  north : ℚ
  deriving DecidableEq, Repr

/-- The parts of a `CesiumGeospatial::CartographicPolygon` the rasterizer
reads: `getVertices()`, `getIndices()` and `getBoundingRectangle()`. -/
structure CartographicPolygon where
  vertices : List DVec2
  indices : List Nat
  boundingRectangle : Option GlobeRectangle
  deriving DecidableEq, Repr

/-- The fields of `CesiumGltf::ImageCesium` the rasterizer sets; the integer
fields are `int32_t`, `pixelData` is the byte vector. -/
structure ImageCesium where
  width : Int
  height : Int
  channels : Int
  bytesPerChannel : Int
  pixelData : List Nat
  deriving DecidableEq, Repr

/-- The fields of `LoadedRasterOverlayImage` the rasterizer sets. -/
structure LoadedRasterOverlayImage where
  image : ImageCesium
  moreDetailAvailable : Bool
  deriving DecidableEq, Repr

/-- The collaborators of `rasterizePolygons` that are declared outside this
translation unit, taken as parameters:
`CesiumImpl::withinPolygonsAndReturnIndex` and the `GlobeRectangle` members
`computeIntersection`, `computeWidth` and `computeHeight`. -/
structure Geometry where
  withinPolygonsAndReturnIndex : GlobeRectangle → List CartographicPolygon → Bool × Int
  computeIntersection : GlobeRectangle → GlobeRectangle → Option GlobeRectangle
  computeWidth : GlobeRectangle → ℚ
  computeHeight : GlobeRectangle → ℚ

/-! ## Machine integers -/

/-- Conversion to `int32_t`: the value modulo `2 ^ 32`, read as two's
complement (a value out of range wraps). -/
def toInt32 (z : Int) : Int := (z + 2 ^ 31) % 2 ^ 32 - 2 ^ 31

/-- Conversion of a signed integer to `size_t` (64 bits): the value modulo
`2 ^ 64`. -/
def toSizeT (z : Int) : Nat := (z % 2 ^ 64).toNat

/-- Rounding to the nearest integer, halves away from zero (`glm::round`). -/
def glmRound (x : ℚ) : Int :=
  if 0 ≤ x then ⌊x + 1 / 2⌋ else ⌈x - 1 / 2⌉

/-- The rounded texture width stored in `image.width`. -/
def imageWidth (textureSize : DVec2) : Int := toInt32 (glmRound textureSize.x)

/-- The rounded texture height stored in `image.height`. -/
def imageHeight (textureSize : DVec2) : Int := toInt32 (glmRound textureSize.y)

/-! ## Rasterizer -/

/-- The call `v.resize(n, fill)` on a byte vector. -/
def resize (v : List Nat) (n : Nat) (fill : Nat) : List Nat :=
  v.take n ++ List.replicate (n - v.length) fill

/-- The assignment `v[index] = value`; no result when `index` is out of bounds. -/
def writeByte (v : List Nat) (index value : Nat) : Option (List Nat) :=
  if index < v.length then some (v.set index value) else none

/-- The four byte stores of one pixel, in source order (alpha first), at byte
offset `offset`, from the 24-bit word `flattenHeightBytes`. -/
def writePixel (pixelData : List Nat) (offset flattenHeightBytes : Nat) : Option (List Nat) := do
  let pixelData ← writeByte pixelData ((offset + 3) % 2 ^ 64) 0xff
  let pixelData ← writeByte pixelData ((offset + 0) % 2 ^ 64) ((flattenHeightBytes >>> 16) &&& 0xFF)
  let pixelData ← writeByte pixelData ((offset + 1) % 2 ^ 64) ((flattenHeightBytes >>> 8) &&& 0xFF)
  writeByte pixelData ((offset + 2) % 2 ^ 64) (flattenHeightBytes &&& 0xFF)

/-- The vertices `a`, `b`, `c` of triangle number `triangle` of a polygon:
`vertices[indices[3 * triangle + k]]`; no result when an index is out of bounds. -/
def triangleVertices (polygon : CartographicPolygon) (triangle : Nat) :
    Option (DVec2 × DVec2 × DVec2) := do
  let ia ← polygon.indices[3 * triangle]?
  let a ← polygon.vertices[ia]?
  let ib ← polygon.indices[3 * triangle + 1]?
  let b ← polygon.vertices[ib]?
  let ic ← polygon.indices[3 * triangle + 2]?
  let c ← polygon.vertices[ic]?
  some (a, b, c)

/-- The rectangle `triangleBounds` built from the component-wise minimum and
maximum of the three vertices. -/
def triangleBounds (a b c : DVec2) : GlobeRectangle :=
  let minX := min a.x (min b.x c.x)
  let minY := min a.y (min b.y c.y)
  let maxX := max a.x (max b.x c.x)
  let maxY := max a.y (max b.y c.y)
  ⟨minX, minY, maxX, maxY⟩

/-- The projection `v_proj_ab_perp = dot(v - a, ab_perp)`. -/
def projAB (a b _c v : DVec2) : ℚ :=
  (v.x - a.x) * (-(b.y - a.y)) + (v.y - a.y) * (b.x - a.x)

/-- The projection `v_proj_bc_perp = dot(v - c, bc_perp)`. -/
def projBC (_a b c v : DVec2) : ℚ :=
  (v.x - c.x) * (-(c.y - b.y)) + (v.y - c.y) * (c.x - b.x)

/-- The projection `v_proj_ca_perp = dot(v - c, ca_perp)`. -/
def projCA (a _b c v : DVec2) : ℚ :=
  (v.x - c.x) * (-(a.y - c.y)) + (v.y - c.y) * (a.x - c.x)

/-- The condition of the `if` that guards the pixel stores. -/
def insideTest (a b c v : DVec2) : Bool :=
  (decide (projAB a b c v ≥ 0) && decide (projCA a b c v ≥ 0) && decide (projBC a b c v ≥ 0)) ||
  (decide (projAB a b c v ≤ 0) && decide (projCA a b c v ≤ 0) && decide (projBC a b c v ≤ 0))

/-- The point `v = (pixelX, pixelY)` of column `i`, row `j`. -/
def pixelCenter (geo : Geometry) (rectangle : GlobeRectangle) (width height i j : Nat) : DVec2 :=
  let rectangleWidth := geo.computeWidth rectangle
  let rectangleHeight := geo.computeHeight rectangle
  let pixelY := rectangle.south + rectangleHeight * (1.0 - ((j : ℚ) + 0.5) / (height : ℚ))
  let pixelX := rectangle.west + rectangleWidth * ((i : ℚ) + 0.5) / (width : ℚ)
  ⟨pixelX, pixelY⟩

/-- Body of the loop over `i`: test the pixel of column `i`, row `j` against
the triangle and store the pixel when the test passes. -/
def rasterizePixel (geo : Geometry) (rectangle : GlobeRectangle) (flattenHeights : List Nat)
    (polygonIndex : Int) (width height : Nat) (a b c : DVec2) (j : Nat)
    (pixelData : List Nat) (i : Nat) : Option (List Nat) :=
  let v := pixelCenter geo rectangle width height i j
  if insideTest a b c v then do
    let value ← flattenHeights[toSizeT polygonIndex]?
    let flattenHeightBytes := float32ToFloat24 value
    writePixel pixelData (((width * j % 2 ^ 64 + i) % 2 ^ 64) * 4 % 2 ^ 64) flattenHeightBytes
  else some pixelData

/-- Body of the loop over `triangle`. -/
def rasterizeTriangle (geo : Geometry) (rectangle : GlobeRectangle) (flattenHeights : List Nat)
    (polygonIndex : Int) (width height : Nat) (polygon : CartographicPolygon)
    (pixelData : List Nat) (triangle : Nat) : Option (List Nat) := do
  let (a, b, c) ← triangleVertices polygon triangle
  -- skip this triangle if it is entirely outside the tile bounds
  if (geo.computeIntersection rectangle (triangleBounds a b c)).isNone then
    some pixelData
  else
    (List.range height).foldlM (fun pixelData j =>
      (List.range width).foldlM
        (rasterizePixel geo rectangle flattenHeights polygonIndex width height a b c j)
        pixelData) pixelData

/-- The loop over `cartographicPolygons`; `polygonIndex` is the value of the
counter before the increment at the top of the body. -/
def rasterizePolygonLoop (geo : Geometry) (rectangle : GlobeRectangle) (flattenHeights : List Nat)
    (width height : Nat) :
    List CartographicPolygon → Int → List Nat → Option (List Nat)
  | [], _, pixelData => some pixelData
  | polygon :: rest, polygonIndex, pixelData => do
    let polygonIndex := toInt32 (polygonIndex + 1)
    let pixelData ← (List.range (polygon.indices.length / 3)).foldlM
      (rasterizeTriangle geo rectangle flattenHeights polygonIndex width height polygon) pixelData
    rasterizePolygonLoop geo rectangle flattenHeights width height rest polygonIndex pixelData

/-- Embedding of `rasterizePolygons`. The result is the `loaded` object after
the call; no result when a vector is accessed out of bounds. `flattenHeights`
holds the bit patterns of the heights. -/
def rasterizePolygons (geo : Geometry) (rectangle : GlobeRectangle) (textureSize : DVec2)
    (cartographicPolygons : List CartographicPolygon) (flattenHeights : List Nat) :
    Option LoadedRasterOverlayImage :=
  let insideColorBytes := 0xff
  let outsideColorBytes := 0
  let withinPolygonsResult := geo.withinPolygonsAndReturnIndex rectangle cartographicPolygons
  -- create a 1x1 mask if the rectangle is completely inside a polygon
  if withinPolygonsResult.1 then do
    let channels : Int := 4
    let bytesPerChannel : Int := 1
    let pixelData := resize [] (toSizeT (toInt32 (channels * bytesPerChannel))) 0
    let value ← flattenHeights[toSizeT withinPolygonsResult.2]?
    let flattenHeightBytes := float32ToFloat24 value
    let pixelData := resize pixelData (toSizeT (toInt32 (channels * bytesPerChannel))) 0
    let pixelData ← writeByte pixelData 3 insideColorBytes
    let pixelData ← writeByte pixelData 0 ((flattenHeightBytes >>> 16) &&& 0xFF)
    let pixelData ← writeByte pixelData 1 ((flattenHeightBytes >>> 8) &&& 0xFF)
    let pixelData ← writeByte pixelData 2 (flattenHeightBytes &&& 0xFF)
    some ⟨⟨1, 1, channels, bytesPerChannel, pixelData⟩, false⟩
  else
    let completelyOutsidePolygons := !cartographicPolygons.any (fun selection =>
      match selection.boundingRectangle with
      | some boundingRectangle => (geo.computeIntersection rectangle boundingRectangle).isSome
      | none => false)
    -- create a 1x1 mask if the rectangle is completely outside all polygons
    if completelyOutsidePolygons then do
      let channels : Int := 4
      let bytesPerChannel : Int := 1
      let pixelData := resize [] (toSizeT (toInt32 (channels * bytesPerChannel))) 0
      let pixelData ← writeByte pixelData 3 outsideColorBytes
      let pixelData ← writeByte pixelData 0 0
      let pixelData ← writeByte pixelData 1 0
      let pixelData ← writeByte pixelData 2 0
      some ⟨⟨1, 1, channels, bytesPerChannel, pixelData⟩, false⟩
    else do
      -- create source image
      let imageWidth := imageWidth textureSize
      let imageHeight := imageHeight textureSize
      let channels : Int := 4
      let bytesPerChannel : Int := 1
      let pixelData := resize []
        (toSizeT (toInt32 (toInt32 (toInt32 (imageWidth * imageHeight) * channels) * bytesPerChannel))) 0
      let width := toSizeT imageWidth
      let height := toSizeT imageHeight
      let pixelData ← rasterizePolygonLoop geo rectangle flattenHeights width height
        cartographicPolygons (-1) pixelData
      some ⟨⟨imageWidth, imageHeight, channels, bytesPerChannel, pixelData⟩, true⟩

/-! ## Reading the result -/

/-- The four bytes R, G, B, A of pixel number `k` of a buffer (`none` where the
buffer ends before the byte). -/
def pixelAt (pixelData : List Nat) (k : Nat) : List (Option Nat) :=
  [pixelData[k * 4]?, pixelData[k * 4 + 1]?, pixelData[k * 4 + 2]?, pixelData[k * 4 + 3]?]

/-- The four bytes of a covered pixel for the height with bit pattern `value`:
bits 23..16, 15..8 and 7..0 of its 24-bit encoding, then 255. -/
def encodedPixel (value : Nat) : List (Option Nat) :=
  [some (float32ToFloat24 value / 2 ^ 16 % 256), some (float32ToFloat24 value / 2 ^ 8 % 256),
   some (float32ToFloat24 value % 256), some 255]

/-- The four bytes of a pixel that was never stored to. -/
def blankPixel : List (Option Nat) := [some 0, some 0, some 0, some 0]

/-- Triangle number `triangle` of `polygon` is not skipped and the centre of
the pixel of column `i`, row `j` passes its inside test. -/
def triangleCovers (geo : Geometry) (rectangle : GlobeRectangle) (width height : Nat)
    (polygon : CartographicPolygon) (triangle i j : Nat) : Bool :=
  match triangleVertices polygon triangle with
  | none => false
  | some (a, b, c) =>
    (geo.computeIntersection rectangle (triangleBounds a b c)).isSome &&
      insideTest a b c (pixelCenter geo rectangle width height i j)

/-- Some triangle of `polygon` covers the pixel of column `i`, row `j`. -/
def polygonCovers (geo : Geometry) (rectangle : GlobeRectangle) (width height : Nat)
    (polygon : CartographicPolygon) (i j : Nat) : Bool :=
  (List.range (polygon.indices.length / 3)).any
    (fun triangle => triangleCovers geo rectangle width height polygon triangle i j)

/-- The buffer `pixelData'` is `pixelData` with every pixel whose number
satisfies `S` replaced by the bytes `e`. -/
def Repainted (S : Nat → Prop) (e : List (Option Nat)) (pixelData pixelData' : List Nat) : Prop :=
  pixelData'.length = pixelData.length ∧
    ∀ k, (S k → pixelAt pixelData' k = e) ∧ (¬ S k → pixelAt pixelData' k = pixelAt pixelData k)

/-- Pixel number `k` of a `width` x `height` image is covered by `polygon`. -/
def Covered (geo : Geometry) (rectangle : GlobeRectangle) (width height : Nat)
    (polygon : CartographicPolygon) (k : Nat) : Prop :=
  ∃ j, j < height ∧ ∃ i, i < width ∧ k = width * j + i ∧
    polygonCovers geo rectangle width height polygon i j = true

/-- The three edge projections at `v` are all non-negative or all non-positive. -/
def ProjectionsAgree (a b c v : DVec2) : Prop :=
  (0 ≤ projAB a b c v ∧ 0 ≤ projBC a b c v ∧ 0 ≤ projCA a b c v) ∨
  (projAB a b c v ≤ 0 ∧ projBC a b c v ≤ 0 ∧ projCA a b c v ≤ 0)

/-- The polygon has a triangle `(a, b, c)` whose bounding rectangle intersects
the tile rectangle and whose three projections at the centre of the pixel of
column `i`, row `j` agree in sign. -/
def HasTriangleAt (geo : Geometry) (rectangle : GlobeRectangle) (width height : Nat)
    (polygon : CartographicPolygon) (i j : Nat) : Prop :=
  ∃ triangle a b c, triangle < polygon.indices.length / 3 ∧
    triangleVertices polygon triangle = some (a, b, c) ∧
    (geo.computeIntersection rectangle (triangleBounds a b c)).isSome = true ∧
    ProjectionsAgree a b c (pixelCenter geo rectangle width height i j)

/-- The tile takes neither fast path: the containment test reports `false`
and the tile rectangle intersects the bounding rectangle of some polygon. -/
def IsMixed (geo : Geometry) (rectangle : GlobeRectangle)
    (cartographicPolygons : List CartographicPolygon) : Prop :=
  (geo.withinPolygonsAndReturnIndex rectangle cartographicPolygons).1 = false ∧
  ∃ polygon ∈ cartographicPolygons, ∃ boundingRectangle,
    polygon.boundingRectangle = some boundingRectangle ∧
    (geo.computeIntersection rectangle boundingRectangle).isSome = true

/-- The preconditions under which the accesses of `rasterizePolygons` are
meant to be in bounds: one height per polygon, triangulation indices below the
vertex count, a reported containment index that is an index into the polygons,
and non-negative rounded texture dimensions. -/
structure IndexPreconditions (geo : Geometry) (rectangle : GlobeRectangle) (textureSize : DVec2)
    (cartographicPolygons : List CartographicPolygon) (flattenHeights : List Nat) : Prop where
  heights_length : flattenHeights.length = cartographicPolygons.length
  indices_lt : ∀ polygon ∈ cartographicPolygons, ∀ x ∈ polygon.indices, x < polygon.vertices.length
  reported_lt : (geo.withinPolygonsAndReturnIndex rectangle cartographicPolygons).1 = true →
    0 ≤ (geo.withinPolygonsAndReturnIndex rectangle cartographicPolygons).2 ∧
    (geo.withinPolygonsAndReturnIndex rectangle cartographicPolygons).2 < cartographicPolygons.length
  width_nonneg : 0 ≤ imageWidth textureSize
  height_nonneg : 0 ≤ imageHeight textureSize

/-! ## A concrete instance of the collaborators -/

/-- Modelled from the spec: `GlobeRectangle::computeIntersection` (absent from
the sources at hand) for rectangles that do not cross the antimeridian: the
overlap of the two rectangles, or nothing when the overlap has no area. -/
def planarIntersection (r s : GlobeRectangle) : Option GlobeRectangle :=
  let west := max r.west s.west
  let east := min r.east s.east
  let south := max r.south s.south
  let north := min r.north s.north
  if east ≤ west then none
  else if south ≥ north then none
  else some ⟨west, south, east, north⟩

/-- Whether the four corners of `r` pass the inside test of triangle number
`triangle` of `polygon`; the rectangle then lies within the triangle. -/
def cornersInTriangle (r : GlobeRectangle) (polygon : CartographicPolygon) (triangle : Nat) : Bool :=
  match triangleVertices polygon triangle with
  | none => false
  | some (a, b, c) =>
    insideTest a b c ⟨r.west, r.south⟩ && insideTest a b c ⟨r.east, r.south⟩ &&
    insideTest a b c ⟨r.west, r.north⟩ && insideTest a b c ⟨r.east, r.north⟩

/-- Modelled from the spec: `withinPolygonsAndReturnIndex` (absent from the
sources at hand) tests polygon by polygon in index order whether the tile
rectangle lies within that polygon and reports the first index for which it
does. The per-polygon test used here accepts a rectangle that lies within a
single triangle of the polygon. -/
def firstContaining (r : GlobeRectangle) : List CartographicPolygon → Int → Bool × Int
  | [], _ => (false, -1)
  | polygon :: rest, index =>
    if (List.range (polygon.indices.length / 3)).any (cornersInTriangle r polygon) then (true, index)
    else firstContaining r rest (index + 1)

/-- Modelled from the spec: the collaborators for rectangles that do not cross
the antimeridian, with width `east - west` and height `north - south`. -/
def planarGeometry : Geometry where
  withinPolygonsAndReturnIndex := fun r polygons => firstContaining r polygons 0
  computeIntersection := planarIntersection
  computeWidth := fun r => r.east - r.west
  computeHeight := fun r => r.north - r.south

/-- The tile `[0, 2] x [0, 2]` used in the examples. -/
def sampleTile : GlobeRectangle := ⟨0, 0, 2, 2⟩

/-- A polygon of one triangle that contains the pixel centres `(1/2, 1/2)` and
`(1/2, 3/2)` of `sampleTile` at 2x2 and neither `(3/2, 1/2)` nor `(3/2, 3/2)`. -/
def leftTriangle : CartographicPolygon :=
  ⟨[⟨0, -2⟩, ⟨0, 4⟩, ⟨1, 1⟩], [0, 1, 2], some ⟨0, -2, 1, 4⟩⟩

/-- A polygon of one triangle that contains the pixel centres `(1/2, 3/2)` and
`(3/2, 3/2)` of `sampleTile` at 2x2 and neither `(1/2, 1/2)` nor `(3/2, 1/2)`. -/
def topTriangle : CartographicPolygon :=
  ⟨[⟨-2, 1⟩, ⟨4, 1⟩, ⟨1, 4⟩], [0, 1, 2], some ⟨-2, 1, 4, 4⟩⟩

/-- Twice the signed area of the triangle `(a, b, c)`. -/
def signedArea2 (a b c : DVec2) : ℚ :=
  (b.x - a.x) * (c.y - a.y) - (b.y - a.y) * (c.x - a.x)

/-- The point `v` lies in the closed rectangle `r`. -/
def InRectangle (r : GlobeRectangle) (v : DVec2) : Prop :=
  r.west ≤ v.x ∧ v.x ≤ r.east ∧ r.south ≤ v.y ∧ v.y ≤ r.north

/-! ## Tile production -/

/-- The fields of `RasterOverlayOptions` read by `loadTileImage`;
`maximumTextureSize` is an `int32_t`. -/
structure RasterOverlayOptions where
  maximumScreenSpaceError : ℚ
  maximumTextureSize : Int

/-- The projected rectangle of a tile (`CesiumGeometry::Rectangle`). -/
structure Rectangle where
  minimumX : ℚ
  minimumY : ℚ
  maximumX : ℚ
  maximumY : ℚ
  deriving DecidableEq, Repr

/-- The parts of a `RasterOverlayTile` read by `loadTileImage`:
`getTargetScreenPixels()` and `getRectangle()`. -/
structure RasterOverlayTile where
  targetScreenPixels : DVec2
  rectangle : Rectangle

/-- The texture size chosen in `loadTileImage`:
`glm::min(targetScreenPixels / maximumScreenSpaceError, glm::dvec2(maximumTextureSize))`. -/
def chooseTextureSize (targetScreenPixels : DVec2) (options : RasterOverlayOptions) : DVec2 :=
  ⟨min (targetScreenPixels.x / options.maximumScreenSpaceError) (options.maximumTextureSize : ℚ),
   min (targetScreenPixels.y / options.maximumScreenSpaceError) (options.maximumTextureSize : ℚ)⟩

/-- Embedding of `RasterizedFlattenPolygonsTileProvider::loadTileImage`, as the
value the returned future resolves to: the rasterized image together with the
echoed `result.rectangle`. `unprojectRectangleSimple` (with the provider's
projection applied) is declared outside this translation unit and is a
parameter. -/
def loadTileImage (geo : Geometry) (unprojectRectangleSimple : Rectangle → GlobeRectangle)
    (options : RasterOverlayOptions) (polygons : List CartographicPolygon)
    (flattenHeights : List Nat) (overlayTile : RasterOverlayTile) :
    Option (LoadedRasterOverlayImage × Rectangle) := do
  let textureSize := chooseTextureSize overlayTile.targetScreenPixels options
  let rectangle := overlayTile.rectangle
  let tileRectangle := unprojectRectangleSimple rectangle
  let result ← rasterizePolygons geo tileRectangle textureSize polygons flattenHeights
  some (result, rectangle)

/-! ### Bit operations as arithmetic -/

theorem and_one_eq_mod (x : Nat) : x &&& 0x1 = x % 2 :=
  Nat.and_pow_two_sub_one_eq_mod x 1

theorem and_FF_eq_mod (x : Nat) : x &&& 0xFF = x % 256 :=
  Nat.and_pow_two_sub_one_eq_mod x 8

theorem and_7FFF_eq_mod (x : Nat) : x &&& 0x7FFF = x % 32768 :=
  Nat.and_pow_two_sub_one_eq_mod x 15

theorem and_7FFFFF_eq_mod (x : Nat) : x &&& 0x7FFFFF = x % 8388608 :=
  Nat.and_pow_two_sub_one_eq_mod x 23

theorem and_7FFFFFFF_eq_mod (x : Nat) : x &&& 0x7FFFFFFF = x % 2147483648 :=
  Nat.and_pow_two_sub_one_eq_mod x 31

theorem and_two_pow_eq_zero_iff (x n : Nat) : x &&& 2 ^ n = 0 ↔ x / 2 ^ n % 2 = 0 := by
  have hbit : x.testBit n = decide (x / 2 ^ n % 2 = 1) := Nat.testBit_to_div_mod
  constructor
  · intro h
    have h1 : (x &&& 2 ^ n).testBit n = false := by rw [h]; simp
    rw [Nat.testBit_and, Nat.testBit_two_pow_self, Bool.and_true, hbit] at h1
    have h2 : ¬ (x / 2 ^ n % 2 = 1) := by simpa using h1
    omega
  · intro h
    apply Nat.eq_of_testBit_eq
    intro j
    rw [Nat.testBit_and, Nat.testBit_two_pow, Nat.zero_testBit]
    by_cases hj : n = j
    · subst hj
      rw [hbit]
      simp [h]
    · simp [hj]

theorem and_800000_eq_zero_iff (x : Nat) : x &&& 0x800000 = 0 ↔ x / 8388608 % 2 = 0 :=
  and_two_pow_eq_zero_iff x 23

/-- Packing three disjoint fields with `|` is addition. -/
theorem or_fields (i j a b c : Nat) (hb : b < 2 ^ (i - j)) (hc : c < 2 ^ j) (hji : j ≤ i) :
    (a <<< i) ||| (b <<< j) ||| c = a * 2 ^ i + b * 2 ^ j + c := by
  have hbj : b * 2 ^ j + c < 2 ^ i := by
    have h1 : (b + 1) * 2 ^ j ≤ 2 ^ (i - j) * 2 ^ j := Nat.mul_le_mul_right _ hb
    have h2 : 2 ^ (i - j) * 2 ^ j = 2 ^ i := by
      rw [← Nat.pow_add, Nat.sub_add_cancel hji]
    have h3 : (b + 1) * 2 ^ j = b * 2 ^ j + 2 ^ j := by ring
    omega
  rw [Nat.shiftLeft_eq, Nat.shiftLeft_eq, Nat.lor_assoc]
  have e1 : b * 2 ^ j ||| c = b * 2 ^ j + c := by
    rw [Nat.mul_comm b, ← Nat.mul_add_lt_is_or hc]
  rw [e1, Nat.mul_comm a, ← Nat.mul_add_lt_is_or hbj, Nat.add_assoc]


/-! ### The codec in arithmetic form -/

theorem floatNeZero_iff (b : Nat) : floatNeZero b = true ↔ b % 2147483648 ≠ 0 := by
  unfold floatNeZero
  rw [and_7FFFFFFF_eq_mod]
  simp

/-- Encoding when the rebiased exponent stays within `0..127`. -/
theorem float32ToFloat24_mid (b : Nat) (h1 : 64 ≤ b / 2 ^ 23 % 256)
    (h2 : b / 2 ^ 23 % 256 ≤ 191) :
    float32ToFloat24 b
      = (b / 2 ^ 31 % 2) * 2 ^ 23 + (b / 2 ^ 23 % 256 - 64) * 2 ^ 15 + b % 2 ^ 23 / 256 := by
  have hnz : floatNeZero b = true := by
    rw [floatNeZero_iff]
    omega
  unfold float32ToFloat24
  simp only [hnz, if_true, and_one_eq_mod, and_FF_eq_mod, and_7FFFFF_eq_mod,
    Nat.shiftRight_eq_div_pow]
  have he : (b / 2 ^ 23 % 256 + 2 ^ 32 - 127 + 63) % 2 ^ 32 = b / 2 ^ 23 % 256 - 64 := by omega
  rw [he]
  have hle : ¬ (b / 2 ^ 23 % 256 - 64 > 127) := by omega
  simp only [hle, if_false, Nat.not_lt_zero]
  rw [or_fields 23 15 _ _ _ (by omega) (by omega) (by omega)]
  omega

/-- Encoding when the `uint32_t` rebiased exponent is above 127. -/
theorem float32ToFloat24_saturated (b : Nat) (hnz : b % 2 ^ 31 ≠ 0)
    (h : b / 2 ^ 23 % 256 < 64 ∨ 192 ≤ b / 2 ^ 23 % 256) :
    float32ToFloat24 b = (b / 2 ^ 31 % 2) * 2 ^ 23 + 127 * 2 ^ 15 + 0xFFF := by
  have hnz1 : floatNeZero b = true := by
    rw [floatNeZero_iff]
    omega
  unfold float32ToFloat24
  simp only [hnz1, if_true, and_one_eq_mod, and_FF_eq_mod, and_7FFFFF_eq_mod,
    Nat.shiftRight_eq_div_pow]
  have hgt : (b / 2 ^ 23 % 256 + 2 ^ 32 - 127 + 63) % 2 ^ 32 > 127 := by omega
  simp only [hgt, if_true]
  rw [or_fields 23 15 _ _ _ (by omega) (by omega) (by omega)]
  omega

/-- Decoding a word whose exponent field is neither 0 nor 127 (and below 127). -/
theorem float24ToFloat32_mid (fuel w : Nat) (h1 : 1 ≤ w / 2 ^ 15 % 256)
    (h2 : w / 2 ^ 15 % 256 ≤ 126) :
    float24ToFloat32 fuel w
      = some ((w / 2 ^ 23 % 2) * 2 ^ 31 + (w / 2 ^ 15 % 256 + 64) * 2 ^ 23
          + w % 2 ^ 15 * 256) := by
  unfold float24ToFloat32
  simp only [and_one_eq_mod, and_FF_eq_mod, and_7FFF_eq_mod, Nat.shiftRight_eq_div_pow,
    Nat.shiftLeft_eq]
  have hne0 : ¬ (w / 2 ^ 15 % 256 = 0) := by omega
  have hne127 : ¬ (w / 2 ^ 15 % 256 = 127) := by omega
  simp only [hne0, hne127, if_false]
  have hm : w % 32768 * 2 ^ 8 % 2 ^ 32 = w % 32768 * 2 ^ 8 := by omega
  have hx : (w / 2 ^ 15 % 256 + (127 - 63)) % 2 ^ 32 = w / 2 ^ 15 % 256 + 64 := by omega
  rw [hm, hx]
  have := or_fields 31 23 (w / 2 ^ 23 % 2) (w / 2 ^ 15 % 256 + 64) (w % 32768 * 2 ^ 8)
    (by omega) (by omega) (by omega)
  simp only [Nat.shiftLeft_eq] at this
  rw [this]
  refine congrArg some ?_
  omega


/-- Decoding a word whose exponent field is 127. -/
theorem float24ToFloat32_exp127 (fuel w : Nat) (h : w / 2 ^ 15 % 256 = 127) :
    float24ToFloat32 fuel w
      = some ((w / 2 ^ 23 % 2) * 2 ^ 31 + 255 * 2 ^ 23 + w % 2 ^ 15 * 256) := by
  unfold float24ToFloat32
  simp only [and_one_eq_mod, and_FF_eq_mod, and_7FFF_eq_mod, Nat.shiftRight_eq_div_pow,
    Nat.shiftLeft_eq]
  have hne0 : ¬ (w / 2 ^ 15 % 256 = 0) := by omega
  simp only [hne0, h, if_false, if_true]
  have hm : w % 32768 * 2 ^ 8 % 2 ^ 32 = w % 32768 * 2 ^ 8 := by omega
  rw [hm]
  have := or_fields 31 23 (w / 2 ^ 23 % 2) 255 (w % 32768 * 2 ^ 8)
    (by omega) (by omega) (by omega)
  simp only [Nat.shiftLeft_eq] at this
  have h255 : (0x7F800000 : Nat) = 255 * 2 ^ 23 := by norm_num
  rw [h255, this]
  refine congrArg some ?_
  omega

/-- The normalisation loop never exits once the low 24 bits of `mantissa` are
all zero: shifting left cannot set bit 23. -/
theorem normalizeLoop_stuck (fuel : Nat) :
    ∀ mantissa exponent, mantissa % 2 ^ 24 = 0 → normalizeLoop fuel mantissa exponent = none := by
  induction fuel with
  | zero => intro _ _ _; rfl
  | succ n ih =>
    intro mantissa exponent h
    have hbit : mantissa &&& 0x800000 = 0 := by
      rw [and_800000_eq_zero_iff]
      omega
    rw [normalizeLoop, if_pos hbit]
    apply ih
    rw [Nat.shiftLeft_eq]
    omega

/-- Decoding does not return on a word with exponent field 0 whose mantissa
field is non-zero with its low eight bits clear. -/
theorem float24ToFloat32_diverges (fuel w : Nat) (he : w / 2 ^ 15 % 256 = 0)
    (hm : w % 2 ^ 15 ≠ 0) (hlow : w % 256 = 0) : float24ToFloat32 fuel w = none := by
  unfold float24ToFloat32
  simp only [and_FF_eq_mod, and_7FFF_eq_mod, Nat.shiftRight_eq_div_pow, Nat.shiftLeft_eq]
  have hm1 : w % 32768 * 2 ^ 8 % 2 ^ 32 ≠ 0 := by omega
  simp only [he, if_true, hm1, ne_eq, not_false_eq_true]
  rw [normalizeLoop_stuck]
  omega

/-- Round trip on the bit level for exponent fields 65..190: the low eight
mantissa bits are cleared and nothing else changes. -/
theorem roundTrip_bits (fuel b : Nat) (hb : b < 2 ^ 32) (h1 : 65 ≤ b / 2 ^ 23 % 256)
    (h2 : b / 2 ^ 23 % 256 ≤ 190) :
    float24ToFloat32 fuel (float32ToFloat24 b) = some (b / 256 * 256) := by
  rw [float32ToFloat24_mid b (by omega) (by omega)]
  rw [float24ToFloat32_mid _ _ (by omega) (by omega)]
  refine congrArg some ?_
  omega


/-! ### Values of bit patterns -/

theorem float32Value_normal (b : Nat) (h1 : 1 ≤ b / 2 ^ 23 % 256) (h2 : b / 2 ^ 23 % 256 ≤ 254) :
    float32Value b = some ((-1) ^ (b / 2 ^ 31 % 2) * (1 + ((b % 2 ^ 23 : Nat) : ℚ) / 2 ^ 23)
      * 2 ^ (((b / 2 ^ 23 % 256 : Nat) : ℤ) - 127)) := by
  unfold float32Value
  have hne255 : ¬ (b / 2 ^ 23 % 256 = 255) := by omega
  have hne0 : ¬ (b / 2 ^ 23 % 256 = 0) := by omega
  simp only [hne255, hne0, if_false]

/-- Clearing the low eight mantissa bits of a normal float keeps the sign and
moves the value by at most `2 ^ (-7)` of its magnitude. -/
theorem truncation_error (b : Nat) (h1 : 1 ≤ b / 2 ^ 23 % 256) (h2 : b / 2 ^ 23 % 256 ≤ 254) :
    ∃ x y, float32Value b = some x ∧ float32Value (b / 256 * 256) = some y ∧
      float32Sign (b / 256 * 256) = float32Sign b ∧ |y - x| ≤ 2 ^ (-7 : ℤ) * |x| := by
  have e1 : b / 256 * 256 / 2 ^ 31 % 2 = b / 2 ^ 31 % 2 := by omega
  have e2 : b / 256 * 256 / 2 ^ 23 % 256 = b / 2 ^ 23 % 256 := by omega
  have e3 : b / 256 * 256 % 2 ^ 23 = b % 2 ^ 23 - b % 256 := by omega
  have hle : b % 256 ≤ b % 2 ^ 23 := by omega
  have hlt : b % 256 ≤ 255 := by omega
  refine ⟨_, (-1) ^ (b / 2 ^ 31 % 2) * (1 + ((b % 2 ^ 23 - b % 256 : Nat) : ℚ) / 2 ^ 23)
      * 2 ^ (((b / 2 ^ 23 % 256 : Nat) : ℤ) - 127), float32Value_normal b h1 h2, ?_, ?_, ?_⟩
  · rw [float32Value_normal _ (by omega) (by omega), e1, e2, e3]
  · unfold float32Sign
    exact e1
  · generalize hP : (2 : ℚ) ^ (((b / 2 ^ 23 % 256 : Nat) : ℤ) - 127) = P
    have hPpos : 0 < P := by rw [← hP]; positivity
    have hm : (((b % 2 ^ 23 - b % 256 : Nat)) : ℚ) = ((b % 2 ^ 23 : Nat) : ℚ) - ((b % 256 : Nat) : ℚ) :=
      Nat.cast_sub hle
    rw [hm]
    generalize hM : ((b % 2 ^ 23 : Nat) : ℚ) = M
    generalize hL : ((b % 256 : Nat) : ℚ) = L
    have hL0 : 0 ≤ L := by rw [← hL]; positivity
    have hL255 : L ≤ 255 := by rw [← hL]; exact_mod_cast hlt
    have hM0 : 0 ≤ M := by rw [← hM]; positivity
    have hdiff : ∀ σ : ℚ, σ * (1 + (M - L) / 2 ^ 23) * P - σ * (1 + M / 2 ^ 23) * P
        = -(σ * (L / 2 ^ 23 * P)) := by
      intro σ; ring
    have hσ : |((-1 : ℚ)) ^ (b / 2 ^ 31 % 2)| = 1 := by
      rw [abs_pow, abs_neg, abs_one, one_pow]
    rw [hdiff, abs_neg]
    simp only [abs_mul, hσ, one_mul]
    rw [abs_of_nonneg (by positivity : (0 : ℚ) ≤ L / 2 ^ 23),
      abs_of_nonneg (by positivity : (0 : ℚ) ≤ 1 + M / 2 ^ 23), abs_of_pos hPpos]
    have h7 : ((2 : ℚ) ^ (-7 : ℤ)) = 1 / 128 := by norm_num
    rw [h7]
    have hb1 : L / 2 ^ 23 ≤ 1 / 128 := by
      rw [div_le_iff₀ (by positivity)]
      norm_num
      linarith
    have hb2 : (1 : ℚ) / 128 ≤ 1 / 128 * (1 + M / 2 ^ 23) := by
      have : (0 : ℚ) ≤ M / 2 ^ 23 := by positivity
      nlinarith
    calc L / 2 ^ 23 * P ≤ 1 / 128 * (1 + M / 2 ^ 23) * P :=
      mul_le_mul_of_nonneg_right (le_trans hb1 hb2) hPpos.le
      _ = 1 / 128 * ((1 + M / 2 ^ 23) * P) := by ring

/-! ### Claims about the height codec -/

/-- C1, as stated, fails: `x = 2 ^ 65` (bit pattern `0x60000000`, exponent
field 192) is a normal float32, yet decoding its encoding does not give a float
that denotes a number within relative error `2 ^ (-7)` of `x` (it gives the NaN
pattern `0x7F8FFF00`). -/
theorem roundTrip_fails_above_range :
    0x60000000 < 2 ^ 32 ∧ 1 ≤ float32Exponent 0x60000000 ∧ float32Exponent 0x60000000 ≤ 254 ∧
      ¬ RoundTripWithin 0x60000000 := by
  refine ⟨by decide, by decide, by decide, ?_⟩
  rintro ⟨fuel, r, x, y, hdec, -, hy, -, -⟩
  have henc : float32ToFloat24 0x60000000 = 0x3F8FFF := by decide
  rw [henc, float24ToFloat32_exp127 fuel 0x3F8FFF (by decide)] at hdec
  have hr : r = 0x7F8FFF00 := by
    have := Option.some.inj hdec
    rw [← this]
    decide
  subst hr
  have hnone : float32Value 0x7F8FFF00 = none := by
    unfold float32Value
    simp
  rw [hnone] at hy
  exact Option.noConfusion hy

/-- C1, amended: for every float32 `x` whose biased exponent field lies in
`65..190`, decoding the encoding of `x` returns a float of the same sign that
differs from `x` by a relative error of at most `2 ^ (-7)`, both values read
exactly from their bit patterns. -/
theorem roundTrip_within (b : Nat) (hb : b < 2 ^ 32) (h1 : 65 ≤ float32Exponent b)
    (h2 : float32Exponent b ≤ 190) : RoundTripWithin b := by
  unfold float32Exponent at h1 h2
  obtain ⟨x, y, hx, hy, hs, herr⟩ := truncation_error b (by omega) (by omega)
  exact ⟨0, b / 256 * 256, x, y, roundTrip_bits 0 b hb h1 h2, hx, hy, hs, herr⟩

/-- Instance of `roundTrip_within` at `x = 123.456` (bit pattern `0x42F6E979`). -/
theorem roundTrip_within_witness : RoundTripWithin 0x42F6E979 :=
  roundTrip_within 0x42F6E979 (by decide) (by decide) (by decide)

/-- C6: at `x = 2 ^ 65` (bit pattern `0x60000000`, exponent field 192, rebiased
exponent 128) the encoder returns `0x3F8FFF`: exponent field 127 with only the
low twelve mantissa bits set, not the pattern `127 << 15 | 0x7FFF` with all
fifteen set. -/
theorem float32ToFloat24_overflow_mantissa :
    float32ToFloat24 0x60000000 = (0 <<< 23) ||| (127 <<< 15) ||| 0xFFF ∧
      float32ToFloat24 0x60000000 ≠ (0 <<< 23) ||| (127 <<< 15) ||| 0x7FFF := by
  decide

/-- C7: the encoding of `+0.0` is the word 0, and decoding it returns the bit
pattern of `+0.0` (whatever the fuel: the loop is not entered). -/
theorem zero_roundTrip :
    float32ToFloat24 0 = 0 ∧ ∀ fuel, float24ToFloat32 fuel (float32ToFloat24 0) = some 0 := by
  refine ⟨by decide, ?_⟩
  intro fuel
  have henc : float32ToFloat24 0 = 0 := by decide
  rw [henc]
  unfold float24ToFloat32
  simp

/-- C8: the word `0x000100` (exponent field 0, mantissa field `0x100`), which
is the encoding of the float32 with bit pattern `0x20010000` (exponent field
64), makes the normalisation loop of the decoder run forever: no amount of
fuel yields a result. -/
theorem float24ToFloat32_loops_forever :
    float32ToFloat24 0x20010000 = 0x000100 ∧ ∀ fuel, float24ToFloat32 fuel 0x000100 = none := by
  refine ⟨by decide, ?_⟩
  intro fuel
  exact float24ToFloat32_diverges fuel 0x000100 (by decide) (by decide) (by decide)

/-! ### The two fast paths -/

theorem toSizeT_natCast (n : Nat) (h : n < 2 ^ 64) : toSizeT (n : Int) = n := by
  unfold toSizeT
  omega

theorem resize_nil_four : resize [] (toSizeT (toInt32 (4 * 1))) 0 = [0, 0, 0, 0] := by
  decide

theorem resize_four_four (v : List Nat) (h : v = [0, 0, 0, 0]) :
    resize v (toSizeT (toInt32 (4 * 1))) 0 = [0, 0, 0, 0] := by
  subst h
  decide

/-- The three bytes stored in R, G, B: bits 23..16, 15..8 and 7..0 of the
24-bit word. -/
theorem height_bytes (w : Nat) :
    (w >>> 16) &&& 0xFF = w / 2 ^ 16 % 256 ∧ (w >>> 8) &&& 0xFF = w / 2 ^ 8 % 256 ∧
      w &&& 0xFF = w % 256 := by
  simp only [and_FF_eq_mod, Nat.shiftRight_eq_div_pow, and_self]

/-- The branch taken when the containment test reports `(true, i)`. -/
theorem rasterizePolygons_inside (geo : Geometry) (rectangle : GlobeRectangle) (textureSize : DVec2)
    (cartographicPolygons : List CartographicPolygon) (flattenHeights : List Nat) (i : Nat)
    (hint : i < 2 ^ 31)
    (hwithin : geo.withinPolygonsAndReturnIndex rectangle cartographicPolygons = (true, (i : Int)))
    (hi : i < flattenHeights.length) :
    rasterizePolygons geo rectangle textureSize cartographicPolygons flattenHeights
      = some ⟨⟨1, 1, 4, 1,
          [float32ToFloat24 flattenHeights[i] / 2 ^ 16 % 256,
           float32ToFloat24 flattenHeights[i] / 2 ^ 8 % 256,
           float32ToFloat24 flattenHeights[i] % 256, 255]⟩, false⟩ := by
  have hidx : toSizeT (i : Int) = i := toSizeT_natCast i (by omega)
  have hget : flattenHeights[i]? = some flattenHeights[i] := List.getElem?_eq_getElem hi
  obtain ⟨hb2, hb1, hb0⟩ := height_bytes (float32ToFloat24 flattenHeights[i])
  unfold rasterizePolygons
  simp only [hwithin, if_true, hidx, hget, resize_nil_four, resize_four_four, Option.bind_eq_bind,
    Option.some_bind, writeByte, hb2, hb1, hb0]
  simp

/-- C2: when the containment test reports `(true, i)` with `i` a valid index
into the heights, the result is the 1x1 RGBA image whose bytes are bits 23..16,
bits 15..8 and bits 7..0 of the encoded height of polygon `i`, then 255,
whatever the rectangle, the texture size and the polygons are. -/
theorem containment_fast_path (geo : Geometry) (rectangle : GlobeRectangle) (textureSize : DVec2)
    (cartographicPolygons : List CartographicPolygon) (flattenHeights : List Nat) (i : Nat)
    (hint : i < 2 ^ 31)
    (hwithin : geo.withinPolygonsAndReturnIndex rectangle cartographicPolygons = (true, (i : Int)))
    (hi : i < flattenHeights.length) :
    rasterizePolygons geo rectangle textureSize cartographicPolygons flattenHeights
      = some ⟨⟨1, 1, 4, 1,
          [float32ToFloat24 flattenHeights[i] / 2 ^ 16 % 256,
           float32ToFloat24 flattenHeights[i] / 2 ^ 8 % 256,
           float32ToFloat24 flattenHeights[i] % 256, 255]⟩, false⟩ :=
  rasterizePolygons_inside geo rectangle textureSize cartographicPolygons flattenHeights i hint
    hwithin hi

/-- Instance of `containment_fast_path`: the tile `[0, 1/2] x [0, 1/2]` lies
within the only triangle of `leftTriangle`. -/
theorem containment_fast_path_witness :
    rasterizePolygons planarGeometry ⟨0, 0, 1 / 2, 1 / 2⟩ ⟨256, 256⟩ [leftTriangle] [0x42F6E979]
      = some ⟨⟨1, 1, 4, 1, [0x22, 0xF6, 0xE9, 255]⟩, false⟩ :=
  (containment_fast_path planarGeometry ⟨0, 0, 1 / 2, 1 / 2⟩ ⟨256, 256⟩ [leftTriangle]
    [0x42F6E979] 0 (by decide)
    (by
      simp [planarGeometry, firstContaining, leftTriangle, cornersInTriangle, triangleVertices,
        insideTest, projAB, projBC, projCA, List.range_succ]
      norm_num)
    (by decide)).trans (by decide)

/-- The branch taken when the containment test reports `false` and no
bounding rectangle intersects the tile rectangle. -/
theorem rasterizePolygons_outside (geo : Geometry) (rectangle : GlobeRectangle)
    (textureSize : DVec2) (cartographicPolygons : List CartographicPolygon)
    (flattenHeights : List Nat)
    (hwithin : (geo.withinPolygonsAndReturnIndex rectangle cartographicPolygons).1 = false)
    (hdisjoint : ∀ polygon ∈ cartographicPolygons, ∀ boundingRectangle,
      polygon.boundingRectangle = some boundingRectangle →
        geo.computeIntersection rectangle boundingRectangle = none) :
    rasterizePolygons geo rectangle textureSize cartographicPolygons flattenHeights
        = some ⟨⟨1, 1, 4, 1, [0, 0, 0, 0]⟩, false⟩ := by
  have hany : cartographicPolygons.any (fun selection =>
      match selection.boundingRectangle with
      | some boundingRectangle => (geo.computeIntersection rectangle boundingRectangle).isSome
      | none => false) = false := by
    rw [List.any_eq_false]
    intro polygon hmem
    cases hbr : polygon.boundingRectangle with
    | none => simp
    | some br => simp [hdisjoint polygon hmem br hbr]
  unfold rasterizePolygons
  simp only [hwithin, hany, resize_nil_four, writeByte]
  simp

/-- C3: when the containment test reports `false` and the tile rectangle
intersects the bounding rectangle of no polygon, the result is the 1x1 image
whose four bytes are 0, whatever the texture size; in particular this is the
result for an empty polygon set. -/
theorem exclusion_fast_path (geo : Geometry) (rectangle : GlobeRectangle) (textureSize : DVec2)
    (cartographicPolygons : List CartographicPolygon) (flattenHeights : List Nat)
    (hwithin : (geo.withinPolygonsAndReturnIndex rectangle cartographicPolygons).1 = false)
    (hdisjoint : ∀ polygon ∈ cartographicPolygons, ∀ boundingRectangle,
      polygon.boundingRectangle = some boundingRectangle →
        geo.computeIntersection rectangle boundingRectangle = none) :
    rasterizePolygons geo rectangle textureSize cartographicPolygons flattenHeights
        = some ⟨⟨1, 1, 4, 1, [0, 0, 0, 0]⟩, false⟩ ∧
      (cartographicPolygons = [] →
        rasterizePolygons geo rectangle textureSize [] flattenHeights
          = some ⟨⟨1, 1, 4, 1, [0, 0, 0, 0]⟩, false⟩) := by
  have main := rasterizePolygons_outside geo rectangle textureSize cartographicPolygons
    flattenHeights hwithin hdisjoint
  refine ⟨main, ?_⟩
  intro hnil
  rw [hnil] at main
  exact main

/-- Instance of `exclusion_fast_path`: the bounding rectangle of `leftTriangle`
ends at longitude 1 and the tile `[1, 2] x [0, 2]` starts there. -/
theorem exclusion_fast_path_witness :
    rasterizePolygons planarGeometry ⟨1, 0, 2, 2⟩ ⟨256, 256⟩ [leftTriangle] [0x42F6E979]
      = some ⟨⟨1, 1, 4, 1, [0, 0, 0, 0]⟩, false⟩ :=
  (exclusion_fast_path planarGeometry ⟨1, 0, 2, 2⟩ ⟨256, 256⟩ [leftTriangle] [0x42F6E979]
    (by
      simp [planarGeometry, firstContaining, leftTriangle, cornersInTriangle, triangleVertices,
        insideTest, projAB, projBC, projCA, List.range_succ])
    (by
      intro polygon hmem br hbr
      simp only [List.mem_singleton] at hmem
      subst hmem
      simp only [leftTriangle, Option.some.injEq] at hbr
      subst hbr
      simp [planarGeometry, planarIntersection])).1

/-! ### Stores into the pixel buffer -/

theorem writeByte_eq (v : List Nat) (index value : Nat) (h : index < v.length) :
    writeByte v index value = some (v.set index value) := by
  unfold writeByte
  rw [if_pos h]

theorem writeByte_length (v v' : List Nat) (index value : Nat)
    (h : writeByte v index value = some v') : v'.length = v.length := by
  unfold writeByte at h
  split at h
  · cases h
    simp
  · cases h

theorem writePixel_length (d d' : List Nat) (offset w : Nat)
    (h : writePixel d offset w = some d') : d'.length = d.length := by
  unfold writePixel at h
  simp only [Option.bind_eq_bind, Option.bind_eq_some] at h
  obtain ⟨d1, h1, d2, h2, d3, h3, h4⟩ := h
  rw [writeByte_length _ _ _ _ h4, writeByte_length _ _ _ _ h3, writeByte_length _ _ _ _ h2,
    writeByte_length _ _ _ _ h1]

/-- Storing pixel number `k` when its four bytes lie inside the buffer. -/
theorem writePixel_eq (d : List Nat) (k w : Nat) (hk : k * 4 + 3 < d.length)
    (hsize : d.length ≤ 2 ^ 64) :
    writePixel d (k * 4) w
      = some ((((d.set (k * 4 + 3) 255).set (k * 4) (w / 2 ^ 16 % 256)).set (k * 4 + 1)
          (w / 2 ^ 8 % 256)).set (k * 4 + 2) (w % 256)) := by
  obtain ⟨hb2, hb1, hb0⟩ := height_bytes w
  have m3 : (k * 4 + 3) % 2 ^ 64 = k * 4 + 3 := Nat.mod_eq_of_lt (by omega)
  have m0 : (k * 4 + 0) % 2 ^ 64 = k * 4 := Nat.mod_eq_of_lt (by omega)
  have m1 : (k * 4 + 1) % 2 ^ 64 = k * 4 + 1 := Nat.mod_eq_of_lt (by omega)
  have m2 : (k * 4 + 2) % 2 ^ 64 = k * 4 + 2 := Nat.mod_eq_of_lt (by omega)
  unfold writePixel
  rw [m3, m0, m1, m2, hb2, hb1, hb0]
  rw [writeByte_eq _ _ _ hk]
  simp only [Option.bind_eq_bind, Option.some_bind]
  rw [writeByte_eq _ _ _ (by simp; omega)]
  simp only [Option.some_bind]
  rw [writeByte_eq _ _ _ (by simp; omega)]
  simp only [Option.some_bind]
  rw [writeByte_eq _ _ _ (by simp; omega)]

theorem writePixel_repainted (d : List Nat) (k value : Nat) (hk : k * 4 + 3 < d.length)
    (hsize : d.length ≤ 2 ^ 64) :
    ∃ d', writePixel d (k * 4) (float32ToFloat24 value) = some d' ∧
      Repainted (fun k' => k' = k) (encodedPixel value) d d' := by
  refine ⟨_, writePixel_eq d k _ hk hsize, by simp, ?_⟩
  intro k'
  constructor
  · intro hkk
    subst hkk
    unfold pixelAt encodedPixel
    simp only [List.getElem?_set, List.length_set]
    simp
    omega
  · intro hkk
    have hne : k' ≠ k := hkk
    unfold pixelAt
    simp only [List.getElem?_set, List.length_set]
    have c1 : ∀ a b : Nat, a < 4 → b < 4 → ¬ (k * 4 + a = k' * 4 + b) := by
      intro a b ha hb; omega
    have c0 := c1 0
    simp only [Nat.add_zero] at c0
    have c2 : ∀ a : Nat, a < 4 → ¬ (k * 4 + a = k' * 4) := by
      intro a ha; omega
    have c3 : ¬ (k * 4 = k' * 4) := by omega
    simp [c1, c0, c2, c3]

/-! ### Composing stores -/

theorem Repainted.of_empty (S : Nat → Prop) (e : List (Option Nat)) (d : List Nat)
    (h : ∀ k, ¬ S k) : Repainted S e d d :=
  ⟨rfl, fun k => ⟨fun hk => absurd hk (h k), fun _ => rfl⟩⟩

theorem Repainted.congr {S T : Nat → Prop} {e : List (Option Nat)} {d d' : List Nat}
    (h : Repainted S e d d') (hST : ∀ k, S k ↔ T k) : Repainted T e d d' :=
  ⟨h.1, fun k => ⟨fun hk => (h.2 k).1 ((hST k).2 hk),
    fun hk => (h.2 k).2 (fun hs => hk ((hST k).1 hs))⟩⟩

theorem Repainted.trans {S T : Nat → Prop} {e : List (Option Nat)} {d d' d'' : List Nat}
    (h1 : Repainted S e d d') (h2 : Repainted T e d' d'') :
    Repainted (fun k => S k ∨ T k) e d d'' := by
  refine ⟨h2.1.trans h1.1, fun k => ⟨?_, ?_⟩⟩
  · intro hk
    by_cases hT : T k
    · exact (h2.2 k).1 hT
    · rw [(h2.2 k).2 hT]
      rcases hk with hS | hT'
      · exact (h1.2 k).1 hS
      · exact absurd hT' hT
  · intro hk
    have hS : ¬ S k := fun hs => hk (Or.inl hs)
    have hT : ¬ T k := fun ht => hk (Or.inr ht)
    rw [(h2.2 k).2 hT, (h1.2 k).2 hS]

theorem foldlM_range_succ {β : Type} (f : β → Nat → Option β) (b : β) (n : Nat) :
    (List.range (n + 1)).foldlM f b = ((List.range n).foldlM f b).bind (fun b' => f b' n) := by
  rw [List.range_succ, List.foldlM_append]
  simp

/-- A loop `for (x = 0; x < n; ++x)` whose body repaints the pixels `S x`
repaints the union of the `S x`. -/
theorem foldlM_range_repainted (f : List Nat → Nat → Option (List Nat)) (S : Nat → Nat → Prop)
    (e : List (Option Nat)) (len n : Nat)
    (hstep : ∀ x, x < n → ∀ d, d.length = len → ∃ d', f d x = some d' ∧ Repainted (S x) e d d') :
    ∀ d, d.length = len →
      ∃ d', (List.range n).foldlM f d = some d' ∧ Repainted (fun k => ∃ x, x < n ∧ S x k) e d d' := by
  induction n with
  | zero =>
    intro d _
    refine ⟨d, by simp, Repainted.of_empty _ _ _ ?_⟩
    rintro k ⟨x, hx, -⟩
    exact Nat.not_lt_zero x hx
  | succ n ih =>
    intro d hd
    obtain ⟨d1, hfold, hrep1⟩ := ih (fun x hx => hstep x (Nat.lt_succ_of_lt hx)) d hd
    obtain ⟨d2, hf, hrep2⟩ := hstep n (Nat.lt_succ_self n) d1 (hrep1.1.trans hd)
    refine ⟨d2, ?_, (hrep1.trans hrep2).congr ?_⟩
    · rw [foldlM_range_succ, hfold]
      exact hf
    · intro k
      constructor
      · rintro (⟨x, hx, hs⟩ | hs)
        · exact ⟨x, Nat.lt_succ_of_lt hx, hs⟩
        · exact ⟨n, Nat.lt_succ_self n, hs⟩
      · rintro ⟨x, hx, hs⟩
        rcases Nat.lt_succ_iff_lt_or_eq.1 hx with hlt | heq
        · exact Or.inl ⟨x, hlt, hs⟩
        · subst heq
          exact Or.inr hs

/-- A loop whose body keeps the buffer length keeps the buffer length. -/
theorem foldlM_length {α : Type} (f : List Nat → α → Option (List Nat))
    (hstep : ∀ d x d', f d x = some d' → d'.length = d.length) :
    ∀ (xs : List α) (d d' : List Nat), xs.foldlM f d = some d' → d'.length = d.length := by
  intro xs
  induction xs with
  | nil =>
    intro d d' h
    simp only [List.foldlM_nil] at h
    cases h
    rfl
  | cons x xs ih =>
    intro d d' h
    simp only [List.foldlM_cons, Option.bind_eq_bind, Option.bind_eq_some] at h
    obtain ⟨d1, h1, h2⟩ := h
    rw [ih d1 d' h2, hstep d x d1 h1]

/-! ### The pixel, triangle and polygon loops -/

theorem pixel_index_lt (width height i j : Nat) (hi : i < width) (hj : j < height) :
    width * j + i < width * height := by
  have h1 : width * (j + 1) ≤ width * height := Nat.mul_le_mul_left width hj
  have h2 : width * (j + 1) = width * j + width := by ring
  omega

theorem pixel_index_inj (width i j i' j' : Nat) (hi : i < width) (hi' : i' < width)
    (h : width * j + i = width * j' + i') : i = i' ∧ j = j' := by
  have hpos : 0 < width := by omega
  have e1 : (width * j + i) / width = j := by
    rw [Nat.mul_add_div hpos, Nat.div_eq_of_lt hi, Nat.add_zero]
  have e2 : (width * j' + i') / width = j' := by
    rw [Nat.mul_add_div hpos, Nat.div_eq_of_lt hi', Nat.add_zero]
  have hj : j = j' := by rw [← e1, ← e2, h]
  subst hj
  exact ⟨by omega, rfl⟩

theorem rasterizePixel_length (geo : Geometry) (rectangle : GlobeRectangle)
    (flattenHeights : List Nat) (polygonIndex : Int) (width height : Nat) (a b c : DVec2)
    (j : Nat) (d : List Nat) (i : Nat) (d' : List Nat)
    (h : rasterizePixel geo rectangle flattenHeights polygonIndex width height a b c j d i = some d') :
    d'.length = d.length := by
  unfold rasterizePixel at h
  dsimp only at h
  split at h
  · simp only [Option.bind_eq_bind, Option.bind_eq_some] at h
    obtain ⟨value, -, hw⟩ := h
    exact writePixel_length _ _ _ _ hw
  · cases h
    rfl

theorem rasterizePixel_repainted (geo : Geometry) (rectangle : GlobeRectangle)
    (flattenHeights : List Nat) (polygonIndex : Int) (width height : Nat) (a b c : DVec2)
    (j : Nat) (d : List Nat) (i : Nat) (value : Nat)
    (hvalue : flattenHeights[toSizeT polygonIndex]? = some value)
    (hi : i < width) (hj : j < height) (hlen : d.length = width * height * 4)
    (hsize : width * height * 4 ≤ 2 ^ 64) :
    ∃ d', rasterizePixel geo rectangle flattenHeights polygonIndex width height a b c j d i = some d' ∧
      Repainted (fun k => k = width * j + i ∧
        insideTest a b c (pixelCenter geo rectangle width height i j) = true)
        (encodedPixel value) d d' := by
  have hlt := pixel_index_lt width height i j hi hj
  have hwj : width * j ≤ width * j + i := Nat.le_add_right _ _
  have hoff : ((width * j % 2 ^ 64 + i) % 2 ^ 64) * 4 % 2 ^ 64 = (width * j + i) * 4 := by
    rw [Nat.mod_eq_of_lt (a := width * j) (by omega), Nat.mod_eq_of_lt (a := width * j + i) (by omega),
      Nat.mod_eq_of_lt (by omega)]
  unfold rasterizePixel
  by_cases hin : insideTest a b c (pixelCenter geo rectangle width height i j) = true
  · simp only [hin, if_true, hvalue, Option.bind_eq_bind, Option.some_bind, hoff]
    obtain ⟨d', hw, hrep⟩ := writePixel_repainted d (width * j + i) value (by omega) (by omega)
    exact ⟨d', hw, hrep.congr (fun k => by simp)⟩
  · refine ⟨d, ?_, Repainted.of_empty _ _ _ (fun k hk => hin hk.2)⟩
    simp only [hin]
    simp

theorem triangleVertices_some (polygon : CartographicPolygon) (triangle : Nat)
    (ht : triangle < polygon.indices.length / 3)
    (hidx : ∀ x ∈ polygon.indices, x < polygon.vertices.length) :
    ∃ a b c, triangleVertices polygon triangle = some (a, b, c) := by
  have h0 : 3 * triangle < polygon.indices.length := by omega
  have h1 : 3 * triangle + 1 < polygon.indices.length := by omega
  have h2 : 3 * triangle + 2 < polygon.indices.length := by omega
  have v0 := hidx _ (List.getElem_mem h0)
  have v1 := hidx _ (List.getElem_mem h1)
  have v2 := hidx _ (List.getElem_mem h2)
  refine ⟨polygon.vertices[polygon.indices[3 * triangle]],
    polygon.vertices[polygon.indices[3 * triangle + 1]],
    polygon.vertices[polygon.indices[3 * triangle + 2]], ?_⟩
  unfold triangleVertices
  simp only [List.getElem?_eq_getElem h0, List.getElem?_eq_getElem h1, List.getElem?_eq_getElem h2,
    List.getElem?_eq_getElem v0, List.getElem?_eq_getElem v1, List.getElem?_eq_getElem v2,
    Option.bind_eq_bind, Option.some_bind]

theorem rasterizeTriangle_length (geo : Geometry) (rectangle : GlobeRectangle)
    (flattenHeights : List Nat) (polygonIndex : Int) (width height : Nat)
    (polygon : CartographicPolygon) (d : List Nat) (triangle : Nat) (d' : List Nat)
    (h : rasterizeTriangle geo rectangle flattenHeights polygonIndex width height polygon d triangle
      = some d') : d'.length = d.length := by
  unfold rasterizeTriangle at h
  simp only [Option.bind_eq_bind, Option.bind_eq_some] at h
  obtain ⟨⟨a, b, c⟩, -, h⟩ := h
  dsimp only at h
  split at h
  · cases h
    rfl
  · refine foldlM_length _ ?_ _ _ _ h
    intro d1 j d2 hrow
    refine foldlM_length _ ?_ _ _ _ hrow
    intro d3 i d4 hpix
    exact rasterizePixel_length _ _ _ _ _ _ _ _ _ _ _ _ _ hpix

theorem rasterizeTriangle_repainted (geo : Geometry) (rectangle : GlobeRectangle)
    (flattenHeights : List Nat) (polygonIndex : Int) (width height : Nat)
    (polygon : CartographicPolygon) (d : List Nat) (triangle : Nat) (value : Nat)
    (a b c : DVec2) (hv : triangleVertices polygon triangle = some (a, b, c))
    (hvalue : flattenHeights[toSizeT polygonIndex]? = some value)
    (hlen : d.length = width * height * 4) (hsize : width * height * 4 ≤ 2 ^ 64) :
    ∃ d', rasterizeTriangle geo rectangle flattenHeights polygonIndex width height polygon d triangle
        = some d' ∧
      Repainted (fun k => ∃ j, j < height ∧ ∃ i, i < width ∧ (k = width * j + i ∧
        triangleCovers geo rectangle width height polygon triangle i j = true))
        (encodedPixel value) d d' := by
  unfold rasterizeTriangle
  simp only [hv, Option.bind_eq_bind, Option.some_bind]
  by_cases hskip : (geo.computeIntersection rectangle (triangleBounds a b c)).isNone = true
  · refine ⟨d, by simp [hskip], Repainted.of_empty _ _ _ ?_⟩
    rintro k ⟨j, -, i, -, -, hcov⟩
    unfold triangleCovers at hcov
    rw [Option.isNone_iff_eq_none] at hskip
    simp [hv, hskip] at hcov
  · have hsome : (geo.computeIntersection rectangle (triangleBounds a b c)).isSome = true := by
      cases hci : geo.computeIntersection rectangle (triangleBounds a b c) with
      | none => simp [hci] at hskip
      | some r => rfl
    have hcov : ∀ i j, triangleCovers geo rectangle width height polygon triangle i j
        = insideTest a b c (pixelCenter geo rectangle width height i j) := by
      intro i j
      unfold triangleCovers
      simp [hv, hsome]
    simp only [hskip, hcov]
    refine foldlM_range_repainted _
      (fun j k => ∃ i, i < width ∧ (k = width * j + i ∧
        insideTest a b c (pixelCenter geo rectangle width height i j) = true))
      _ (width * height * 4) height ?_ d hlen
    intro j hj d1 hd1
    refine foldlM_range_repainted _
      (fun i k => k = width * j + i ∧
        insideTest a b c (pixelCenter geo rectangle width height i j) = true)
      _ (width * height * 4) width ?_ d1 hd1
    intro i hi d2 hd2
    exact rasterizePixel_repainted geo rectangle flattenHeights polygonIndex width height a b c j
      d2 i value hvalue hi hj hd2 hsize

/-- The loop over the triangles of one polygon repaints exactly the pixels
the polygon covers, with the encoded height of that polygon. -/
theorem rasterizePolygon_repainted (geo : Geometry) (rectangle : GlobeRectangle)
    (flattenHeights : List Nat) (polygonIndex : Int) (width height : Nat)
    (polygon : CartographicPolygon) (d : List Nat) (value : Nat)
    (hidx : ∀ x ∈ polygon.indices, x < polygon.vertices.length)
    (hvalue : flattenHeights[toSizeT polygonIndex]? = some value)
    (hlen : d.length = width * height * 4) (hsize : width * height * 4 ≤ 2 ^ 64) :
    ∃ d', (List.range (polygon.indices.length / 3)).foldlM
        (rasterizeTriangle geo rectangle flattenHeights polygonIndex width height polygon) d
        = some d' ∧
      Repainted (Covered geo rectangle width height polygon) (encodedPixel value) d d' := by
  obtain ⟨d', hfold, hrep⟩ := foldlM_range_repainted
    (rasterizeTriangle geo rectangle flattenHeights polygonIndex width height polygon)
    (fun triangle k => ∃ j, j < height ∧ ∃ i, i < width ∧ (k = width * j + i ∧
        triangleCovers geo rectangle width height polygon triangle i j = true))
    (encodedPixel value) (width * height * 4) (polygon.indices.length / 3)
    (by
      intro t ht d1 hd1
      obtain ⟨a, b, c, hv⟩ := triangleVertices_some polygon t ht hidx
      exact rasterizeTriangle_repainted geo rectangle flattenHeights polygonIndex width height
        polygon d1 t value a b c hv hvalue hd1 hsize)
    d hlen
  refine ⟨d', hfold, hrep.congr ?_⟩
  intro k
  unfold Covered polygonCovers
  simp only [List.any_eq_true, List.mem_range]
  constructor
  · rintro ⟨t, ht, j, hj, i, hi, hk, hc⟩
    exact ⟨j, hj, i, hi, hk, t, ht, hc⟩
  · rintro ⟨j, hj, i, hi, hk, t, ht, hc⟩
    exact ⟨t, ht, j, hj, i, hi, hk, hc⟩

theorem rasterizePolygonLoop_length (geo : Geometry) (rectangle : GlobeRectangle)
    (flattenHeights : List Nat) (width height : Nat) :
    ∀ (polygons : List CartographicPolygon) (polygonIndex : Int) (d d' : List Nat),
      rasterizePolygonLoop geo rectangle flattenHeights width height polygons polygonIndex d = some d' →
      d'.length = d.length := by
  intro polygons
  induction polygons with
  | nil =>
    intro polygonIndex d d' h
    unfold rasterizePolygonLoop at h
    cases h
    rfl
  | cons polygon rest ih =>
    intro polygonIndex d d' h
    unfold rasterizePolygonLoop at h
    simp only [Option.bind_eq_bind, Option.bind_eq_some] at h
    obtain ⟨d1, h1, h2⟩ := h
    rw [ih _ _ _ h2]
    exact foldlM_length _ (fun d2 t d3 ht => rasterizeTriangle_length _ _ _ _ _ _ _ _ _ _ ht) _ _ _ h1

theorem toInt32_polygonIndex (n : Nat) (h : n < 2 ^ 31) :
    toInt32 ((n : Int) - 1 + 1) = ((n + 1 : Nat) : Int) - 1 ∧ toSizeT (((n + 1 : Nat) : Int) - 1) = n := by
  unfold toInt32 toSizeT
  omega

/-- The loop over the polygons, started with the counter at `first - 1`: it
returns, keeps the buffer length, leaves a pixel no polygon covers unchanged,
and gives a covered pixel the encoded height of the last polygon covering it. -/
theorem rasterizePolygonLoop_spec (geo : Geometry) (rectangle : GlobeRectangle)
    (flattenHeights : List Nat) (width height : Nat) (hsize : width * height * 4 ≤ 2 ^ 64) :
    ∀ (polygons : List CartographicPolygon) (first : Nat) (d : List Nat),
      (∀ polygon ∈ polygons, ∀ x ∈ polygon.indices, x < polygon.vertices.length) →
      d.length = width * height * 4 →
      first + polygons.length ≤ 2 ^ 31 →
      first + polygons.length ≤ flattenHeights.length →
      ∃ d', rasterizePolygonLoop geo rectangle flattenHeights width height polygons
          ((first : Int) - 1) d = some d' ∧ d'.length = d.length ∧
        ∀ k, ((∀ polygon ∈ polygons, ¬ Covered geo rectangle width height polygon k) →
              pixelAt d' k = pixelAt d k) ∧
          (∀ (n : Nat) (polygon : CartographicPolygon), polygons[n]? = some polygon →
            Covered geo rectangle width height polygon k →
            (∀ (m : Nat) (later : CartographicPolygon), n < m → polygons[m]? = some later →
              ¬ Covered geo rectangle width height later k) →
            ∃ value, flattenHeights[first + n]? = some value ∧
              pixelAt d' k = encodedPixel value) := by
  intro polygons
  induction polygons with
  | nil =>
    intro first d _ _ _ _
    refine ⟨d, by unfold rasterizePolygonLoop; rfl, rfl, fun k => ⟨fun _ => rfl, ?_⟩⟩
    intro n polygon hn
    simp at hn
  | cons polygon rest ih =>
    intro first d hidx hlen hcount hheights
    simp only [List.length_cons] at hcount hheights
    obtain ⟨hidx32, hidx64⟩ := toInt32_polygonIndex first (by omega)
    have hvalue : flattenHeights[first]? = some flattenHeights[first] :=
      List.getElem?_eq_getElem (by omega)
    obtain ⟨d1, hbody, hrep⟩ := rasterizePolygon_repainted geo rectangle flattenHeights
      (((first + 1 : Nat) : Int) - 1) width height polygon d flattenHeights[first]
      (hidx polygon (List.mem_cons_self _ _)) ((congrArg (fun index => flattenHeights[index]?) hidx64).trans hvalue) hlen hsize
    obtain ⟨d', hrest, hlen', hspec⟩ := ih (first + 1) d1
      (fun q hq => hidx q (List.mem_cons_of_mem _ hq)) (hrep.1.trans hlen) (by omega) (by omega)
    refine ⟨d', ?_, hlen'.trans hrep.1, ?_⟩
    · unfold rasterizePolygonLoop
      simp only [hidx32, hbody, Option.bind_eq_bind, Option.some_bind]
      exact hrest
    · intro k
      constructor
      · intro hnone
        rw [(hspec k).1 (fun q hq => hnone q (List.mem_cons_of_mem _ hq))]
        exact (hrep.2 k).2 (hnone polygon (List.mem_cons_self _ _))
      · intro n p hn hcov hlast
        cases n with
        | zero =>
          simp only [List.getElem?_cons_zero, Option.some.injEq] at hn
          subst hn
          refine ⟨flattenHeights[first], hvalue, ?_⟩
          rw [(hspec k).1 ?_]
          · exact (hrep.2 k).1 hcov
          · intro q hq
            obtain ⟨m, hm, hqm⟩ := List.getElem_of_mem hq
            exact hlast (m + 1) q (Nat.succ_pos m)
              (by rw [List.getElem?_cons_succ, List.getElem?_eq_getElem hm, hqm])
        | succ n =>
          rw [List.getElem?_cons_succ] at hn
          obtain ⟨value, hval, hpix⟩ := (hspec k).2 n p hn hcov
            (fun m later hnm hm => hlast (m + 1) later (by omega)
              (by rw [List.getElem?_cons_succ]; exact hm))
          refine ⟨value, ?_, hpix⟩
          rw [← hval]
          congr 1
          omega

/-! ### The full rasterization -/

theorem insideTest_iff (a b c v : DVec2) : insideTest a b c v = true ↔ ProjectionsAgree a b c v := by
  unfold insideTest ProjectionsAgree
  simp only [Bool.or_eq_true, Bool.and_eq_true, decide_eq_true_eq, ge_iff_le]
  constructor
  · rintro (⟨⟨h1, h2⟩, h3⟩ | ⟨⟨h1, h2⟩, h3⟩)
    · exact Or.inl ⟨h1, h3, h2⟩
    · exact Or.inr ⟨h1, h3, h2⟩
  · rintro (⟨h1, h2, h3⟩ | ⟨h1, h2, h3⟩)
    · exact Or.inl ⟨⟨h1, h3⟩, h2⟩
    · exact Or.inr ⟨⟨h1, h3⟩, h2⟩

theorem polygonCovers_iff (geo : Geometry) (rectangle : GlobeRectangle) (width height : Nat)
    (polygon : CartographicPolygon) (i j : Nat) :
    polygonCovers geo rectangle width height polygon i j = true ↔
      HasTriangleAt geo rectangle width height polygon i j := by
  unfold polygonCovers HasTriangleAt
  simp only [List.any_eq_true, List.mem_range]
  constructor
  · rintro ⟨t, ht, hc⟩
    unfold triangleCovers at hc
    cases hv : triangleVertices polygon t with
    | none => simp [hv] at hc
    | some abc =>
      obtain ⟨a, b, c⟩ := abc
      simp only [hv, Bool.and_eq_true] at hc
      exact ⟨t, a, b, c, ht, hv, hc.1, (insideTest_iff _ _ _ _).1 hc.2⟩
  · rintro ⟨t, a, b, c, ht, hv, hint, hpr⟩
    refine ⟨t, ht, ?_⟩
    unfold triangleCovers
    simp only [hv, Bool.and_eq_true]
    exact ⟨hint, (insideTest_iff _ _ _ _).2 hpr⟩

theorem covered_iff (geo : Geometry) (rectangle : GlobeRectangle) (width height : Nat)
    (polygon : CartographicPolygon) (i j : Nat) (hi : i < width) (hj : j < height) :
    Covered geo rectangle width height polygon (width * j + i) ↔
      HasTriangleAt geo rectangle width height polygon i j := by
  rw [← polygonCovers_iff]
  unfold Covered
  constructor
  · rintro ⟨j', -, i', hi', hk, hc⟩
    obtain ⟨rfl, rfl⟩ := pixel_index_inj width i j i' j' hi hi' hk
    exact hc
  · intro hc
    exact ⟨j, hj, i, hi, rfl, hc⟩

/-- Among the polygons satisfying `P` there is one of greatest index. -/
theorem exists_last (P : CartographicPolygon → Prop) :
    ∀ (polygons : List CartographicPolygon), (∃ polygon ∈ polygons, P polygon) →
      ∃ (n : Nat) (polygon : CartographicPolygon), polygons[n]? = some polygon ∧ P polygon ∧
        ∀ (m : Nat) (later : CartographicPolygon), n < m → polygons[m]? = some later → ¬ P later := by
  intro polygons
  induction polygons with
  | nil =>
    rintro ⟨p, hp, -⟩
    cases hp
  | cons q rest ih =>
    intro hex
    by_cases hrest : ∃ polygon ∈ rest, P polygon
    · obtain ⟨n, p, hn, hp, hlast⟩ := ih hrest
      refine ⟨n + 1, p, by rw [List.getElem?_cons_succ]; exact hn, hp, ?_⟩
      intro m later hm hlater
      cases m with
      | zero => omega
      | succ m =>
        rw [List.getElem?_cons_succ] at hlater
        exact hlast m later (by omega) hlater
    · obtain ⟨p, hp, hPp⟩ := hex
      have hpq : p = q := by
        rcases List.mem_cons.1 hp with h | h
        · exact h
        · exact absurd ⟨p, h, hPp⟩ hrest
      subst hpq
      refine ⟨0, p, by simp, hPp, ?_⟩
      intro m later hm hlater
      cases m with
      | zero => omega
      | succ m =>
        rw [List.getElem?_cons_succ] at hlater
        intro hP
        exact hrest ⟨later, List.getElem?_mem hlater, hP⟩

theorem toInt32_of_range (z : Int) (h1 : -2 ^ 31 ≤ z) (h2 : z < 2 ^ 31) : toInt32 z = z := by
  unfold toInt32
  omega

theorem buffer_size (w h : Int) (hw : 0 ≤ w) (hh : 0 ≤ h) (hw31 : w < 2 ^ 31) (hh31 : h < 2 ^ 31)
    (hfit : w * h * 4 < 2 ^ 31) :
    toSizeT (toInt32 (toInt32 (toInt32 (w * h) * 4) * 1)) = toSizeT w * toSizeT h * 4 ∧
      toSizeT w * toSizeT h * 4 < 2 ^ 31 ∧ ((toSizeT w * toSizeT h * 4 : Nat) : Int) = w * h * 4 := by
  obtain ⟨W, rfl⟩ := Int.eq_ofNat_of_zero_le hw
  obtain ⟨H, rfl⟩ := Int.eq_ofNat_of_zero_le hh
  have hW : toSizeT (W : Int) = W := toSizeT_natCast W (by omega)
  have hH : toSizeT (H : Int) = H := toSizeT_natCast H (by omega)
  rw [hW, hH]
  have hP : ((W : Int) * (H : Int)) = ((W * H : Nat) : Int) := (Nat.cast_mul W H).symm
  rw [hP] at hfit ⊢
  clear hW hH hP hw hh hw31 hh31
  generalize W * H = P at hfit ⊢
  have hP4 : P * 4 < 2 ^ 31 := by omega
  have h1 : toInt32 (P : Int) = P := toInt32_of_range _ (by omega) (by omega)
  have h2 : toInt32 ((P : Int) * 4) = ((P * 4 : Nat) : Int) := by
    rw [toInt32_of_range _ (by omega) (by omega)]
    push_cast
    rfl
  have h3 : toInt32 (((P * 4 : Nat) : Int) * 1) = ((P * 4 : Nat) : Int) := by
    rw [Int.mul_one]
    exact toInt32_of_range _ (by omega) (by omega)
  rw [h1, h2, h3, toSizeT_natCast _ (by omega)]
  exact ⟨rfl, hP4, by push_cast; rfl⟩

theorem toInt32_bounds (z : Int) : -2 ^ 31 ≤ toInt32 z ∧ toInt32 z < 2 ^ 31 := by
  unfold toInt32
  omega

theorem resize_nil (n : Nat) : resize [] n 0 = List.replicate n 0 := by
  unfold resize
  simp

theorem pixelAt_replicate (n k : Nat) (hk : k * 4 + 3 < n) :
    pixelAt (List.replicate n 0) k = blankPixel := by
  unfold pixelAt blankPixel
  simp only [List.getElem?_replicate]
  have h0 : k * 4 < n := by omega
  have h1 : k * 4 + 1 < n := by omega
  have h2 : k * 4 + 2 < n := by omega
  simp [h0, h1, h2, hk]

theorem any_intersects_of_isMixed (geo : Geometry) (rectangle : GlobeRectangle)
    (cartographicPolygons : List CartographicPolygon)
    (hmixed : IsMixed geo rectangle cartographicPolygons) :
    cartographicPolygons.any (fun selection =>
      match selection.boundingRectangle with
      | some boundingRectangle => (geo.computeIntersection rectangle boundingRectangle).isSome
      | none => false) = true := by
  obtain ⟨-, polygon, hmem, br, hbr, hint⟩ := hmixed
  rw [List.any_eq_true]
  refine ⟨polygon, hmem, ?_⟩
  simp only [hbr]
  exact hint

/-- The result of `rasterizePolygons` on a Mixed tile whose inputs satisfy the
index preconditions and whose buffer size fits `int32_t`. -/
theorem rasterizePolygons_mixed (geo : Geometry) (rectangle : GlobeRectangle) (textureSize : DVec2)
    (cartographicPolygons : List CartographicPolygon) (flattenHeights : List Nat)
    (hmixed : IsMixed geo rectangle cartographicPolygons)
    (hidx : ∀ polygon ∈ cartographicPolygons, ∀ x ∈ polygon.indices, x < polygon.vertices.length)
    (hlen : flattenHeights.length = cartographicPolygons.length)
    (hcount : cartographicPolygons.length ≤ 2 ^ 31)
    (hw : 0 ≤ imageWidth textureSize) (hh : 0 ≤ imageHeight textureSize)
    (hfit : imageWidth textureSize * imageHeight textureSize * 4 < 2 ^ 31) :
    ∃ d, rasterizePolygons geo rectangle textureSize cartographicPolygons flattenHeights
        = some ⟨⟨imageWidth textureSize, imageHeight textureSize, 4, 1, d⟩, true⟩ ∧
      d.length = toSizeT (imageWidth textureSize) * toSizeT (imageHeight textureSize) * 4 ∧
      ∀ i j, i < toSizeT (imageWidth textureSize) → j < toSizeT (imageHeight textureSize) →
        ((∀ polygon ∈ cartographicPolygons,
            ¬ HasTriangleAt geo rectangle (toSizeT (imageWidth textureSize))
              (toSizeT (imageHeight textureSize)) polygon i j) →
          pixelAt d (toSizeT (imageWidth textureSize) * j + i) = blankPixel) ∧
        (∀ (n : Nat) (polygon : CartographicPolygon), cartographicPolygons[n]? = some polygon →
          HasTriangleAt geo rectangle (toSizeT (imageWidth textureSize))
            (toSizeT (imageHeight textureSize)) polygon i j →
          (∀ (m : Nat) (later : CartographicPolygon), n < m → cartographicPolygons[m]? = some later →
            ¬ HasTriangleAt geo rectangle (toSizeT (imageWidth textureSize))
              (toSizeT (imageHeight textureSize)) later i j) →
          ∃ value, flattenHeights[n]? = some value ∧
            pixelAt d (toSizeT (imageWidth textureSize) * j + i) = encodedPixel value) := by
  have hw31 : imageWidth textureSize < 2 ^ 31 := (toInt32_bounds _).2
  have hh31 : imageHeight textureSize < 2 ^ 31 := (toInt32_bounds _).2
  obtain ⟨hsz, hsmall, -⟩ := buffer_size _ _ hw hh hw31 hh31 hfit
  generalize hW : toSizeT (imageWidth textureSize) = W at hsz hsmall ⊢
  generalize hH : toSizeT (imageHeight textureSize) = H at hsz hsmall ⊢
  have hstart : (-1 : Int) = ((0 : Nat) : Int) - 1 := by norm_num
  obtain ⟨d, hloop, hdlen, hspec⟩ := rasterizePolygonLoop_spec geo rectangle flattenHeights W H
    (by omega) cartographicPolygons 0 (List.replicate (W * H * 4) 0) hidx (by simp)
    (by omega) (by omega)
  refine ⟨d, ?_, by rw [hdlen]; simp, ?_⟩
  · unfold rasterizePolygons
    simp only [hmixed.1, any_intersects_of_isMixed geo rectangle cartographicPolygons hmixed,
      Bool.not_true, Bool.false_eq_true, if_false, hsz, hW, hH, resize_nil, hstart, hloop,
      Option.bind_eq_bind, Option.some_bind]
  · intro i j hi hj
    have hk := pixel_index_lt W H i j hi hj
    constructor
    · intro hnone
      rw [(hspec (W * j + i)).1 ?_]
      · exact pixelAt_replicate _ _ (by omega)
      · intro polygon hmem hcov
        exact hnone polygon hmem ((covered_iff geo rectangle W H polygon i j hi hj).1 hcov)
    · intro n polygon hn hcov hlast
      obtain ⟨value, hval, hpix⟩ := (hspec (W * j + i)).2 n polygon hn
        ((covered_iff geo rectangle W H polygon i j hi hj).2 hcov)
        (fun m later hnm hm hc =>
          hlast m later hnm hm ((covered_iff geo rectangle W H later i j hi hj).1 hc))
      refine ⟨value, ?_, hpix⟩
      rw [← hval]
      congr 1
      omega

/-! ### A 2x2 example -/

theorem imageSize_two : imageWidth ⟨2, 2⟩ = 2 ∧ imageHeight ⟨2, 2⟩ = 2 := by
  unfold imageWidth imageHeight glmRound toInt32
  norm_num

theorem sampleTile_isMixed : IsMixed planarGeometry sampleTile [leftTriangle] := by
  refine ⟨?_, leftTriangle, List.mem_singleton.2 rfl, ⟨0, -2, 1, 4⟩, rfl, ?_⟩
  · simp [planarGeometry, firstContaining, leftTriangle, sampleTile, cornersInTriangle,
      triangleVertices, insideTest, projAB, projBC, projCA, List.range_succ]
    norm_num
  · simp [planarGeometry, planarIntersection, sampleTile]
    norm_num

theorem sampleTile_loop :
    rasterizePolygonLoop planarGeometry sampleTile [0x42F6E979] 2 2 [leftTriangle] (-1)
        (List.replicate 16 0)
      = some [0x22, 0xF6, 0xE9, 255, 0, 0, 0, 0, 0x22, 0xF6, 0xE9, 255, 0, 0, 0, 0] := by
  have henc : float32ToFloat24 0x42F6E979 = 0x22F6E9 := by decide
  have hidx : toSizeT (toInt32 0) = 0 := by decide
  simp [rasterizePolygonLoop, rasterizeTriangle, rasterizePixel, triangleVertices, leftTriangle,
    planarGeometry, planarIntersection, sampleTile, triangleBounds, List.range_succ, hidx,
    insideTest, projAB, projBC, projCA, pixelCenter, writePixel, writeByte, henc]
  norm_num
  decide

theorem sampleTile_result :
    rasterizePolygons planarGeometry sampleTile ⟨2, 2⟩ [leftTriangle] [0x42F6E979]
      = some ⟨⟨2, 2, 4, 1,
          [0x22, 0xF6, 0xE9, 255, 0, 0, 0, 0, 0x22, 0xF6, 0xE9, 255, 0, 0, 0, 0]⟩, true⟩ := by
  have hsize : resize [] (toSizeT (toInt32 (toInt32 (toInt32 (2 * 2) * 4) * 1))) 0
      = List.replicate 16 0 := by decide
  have hW : toSizeT 2 = 2 := by decide
  unfold rasterizePolygons
  simp only [sampleTile_isMixed.1,
    any_intersects_of_isMixed planarGeometry sampleTile [leftTriangle] sampleTile_isMixed,
    Bool.not_true, Bool.false_eq_true, if_false, imageSize_two.1, imageSize_two.2, hsize, hW,
    sampleTile_loop, Option.bind_eq_bind, Option.some_bind]

theorem leftTriangle_covers :
    HasTriangleAt planarGeometry sampleTile 2 2 leftTriangle 0 0 ∧
    HasTriangleAt planarGeometry sampleTile 2 2 leftTriangle 0 1 ∧
    ¬ HasTriangleAt planarGeometry sampleTile 2 2 leftTriangle 1 0 ∧
    ¬ HasTriangleAt planarGeometry sampleTile 2 2 leftTriangle 1 1 := by
  have hv : triangleVertices leftTriangle 0 = some (⟨0, -2⟩, ⟨0, 4⟩, ⟨1, 1⟩) := by
    simp [triangleVertices, leftTriangle]
  have hrange : List.range (leftTriangle.indices.length / 3) = [0] := by decide
  have hint : (planarGeometry.computeIntersection sampleTile
      (triangleBounds ⟨0, -2⟩ ⟨0, 4⟩ ⟨1, 1⟩)).isSome = true := by
    simp [planarGeometry, planarIntersection, sampleTile, triangleBounds]
    norm_num
  simp only [← polygonCovers_iff, polygonCovers, hrange, List.any_cons, List.any_nil,
    Bool.or_false, triangleCovers, hv, hint, Bool.true_and]
  simp [insideTest, projAB, projBC, projCA, pixelCenter, planarGeometry, sampleTile]
  norm_num

/-! ### Every access in bounds -/

/-- Under the index preconditions, a polygon count that fits the `int` counter
and a buffer size that fits `int32_t`, the rasterizer returns: no access is
out of bounds. -/
theorem rasterizePolygons_returns (geo : Geometry) (rectangle : GlobeRectangle)
    (textureSize : DVec2) (cartographicPolygons : List CartographicPolygon)
    (flattenHeights : List Nat)
    (hpre : IndexPreconditions geo rectangle textureSize cartographicPolygons flattenHeights)
    (hcount : cartographicPolygons.length ≤ 2 ^ 31)
    (hfit : imageWidth textureSize * imageHeight textureSize * 4 < 2 ^ 31) :
    ∃ loaded, rasterizePolygons geo rectangle textureSize cartographicPolygons flattenHeights
      = some loaded := by
  by_cases hwithin : (geo.withinPolygonsAndReturnIndex rectangle cartographicPolygons).1 = true
  · obtain ⟨h0, hlt⟩ := hpre.reported_lt hwithin
    obtain ⟨n, hn⟩ := Int.eq_ofNat_of_zero_le h0
    rw [hn] at hlt
    have hn' : n < cartographicPolygons.length := by exact_mod_cast hlt
    have hpair : geo.withinPolygonsAndReturnIndex rectangle cartographicPolygons = (true, (n : Int)) := by
      rw [← hn, ← hwithin]
    exact ⟨_, rasterizePolygons_inside geo rectangle textureSize cartographicPolygons
      flattenHeights n (by omega) hpair (by rw [hpre.heights_length]; exact hn')⟩
  · have hfalse : (geo.withinPolygonsAndReturnIndex rectangle cartographicPolygons).1 = false := by
      simpa using hwithin
    by_cases hany : ∃ polygon ∈ cartographicPolygons, ∃ boundingRectangle,
        polygon.boundingRectangle = some boundingRectangle ∧
        (geo.computeIntersection rectangle boundingRectangle).isSome = true
    · obtain ⟨d, hd, -⟩ := rasterizePolygons_mixed geo rectangle textureSize cartographicPolygons
        flattenHeights ⟨hfalse, hany⟩ hpre.indices_lt hpre.heights_length hcount
        hpre.width_nonneg hpre.height_nonneg hfit
      exact ⟨_, hd⟩
    · refine ⟨_, rasterizePolygons_outside geo rectangle textureSize cartographicPolygons
        flattenHeights hfalse ?_⟩
      intro polygon hmem br hbr
      cases hci : geo.computeIntersection rectangle br with
      | none => rfl
      | some r => exact absurd ⟨polygon, hmem, br, hbr, by rw [hci]; rfl⟩ hany

/-! ### A store outside the buffer -/

theorem foldlM_range_first_none {β : Type} (f : β → Nat → Option β) (b : β) (n : Nat)
    (hn : 0 < n) (h0 : f b 0 = none) : (List.range n).foldlM f b = none := by
  obtain ⟨m, rfl⟩ : ∃ m, n = m + 1 := ⟨n - 1, by omega⟩
  rw [List.range_succ_eq_map, List.foldlM_cons, h0]
  rfl

theorem writePixel_none (d : List Nat) (w : Nat) (hd : d.length ≤ 3) : writePixel d 0 w = none := by
  unfold writePixel writeByte
  have h3 : ¬ ((0 + 3) % 2 ^ 64 < d.length) := by omega
  simp only [h3, if_false]
  rfl

/-- The first pixel of a triangle that is rasterized and passes the inside
test there is stored at offset 0; with a buffer shorter than one pixel the
store is out of bounds. -/
theorem rasterizeTriangle_none (geo : Geometry) (rectangle : GlobeRectangle)
    (flattenHeights : List Nat) (polygonIndex : Int) (width height : Nat)
    (polygon : CartographicPolygon) (d : List Nat) (triangle : Nat) (a b c : DVec2)
    (hv : triangleVertices polygon triangle = some (a, b, c))
    (hint : (geo.computeIntersection rectangle (triangleBounds a b c)).isNone = false)
    (hwidth : 0 < width) (hheight : 0 < height)
    (hin : insideTest a b c (pixelCenter geo rectangle width height 0 0) = true)
    (hd : d.length ≤ 3) :
    rasterizeTriangle geo rectangle flattenHeights polygonIndex width height polygon d triangle
      = none := by
  unfold rasterizeTriangle
  simp only [hv, Option.bind_eq_bind, Option.some_bind, hint, Bool.false_eq_true, if_false]
  apply foldlM_range_first_none _ _ _ hheight
  apply foldlM_range_first_none _ _ _ hwidth
  unfold rasterizePixel
  simp only [hin, if_true, Nat.mul_zero, Nat.zero_mod, Nat.add_zero, Nat.zero_mul]
  cases flattenHeights[toSizeT polygonIndex]? with
  | none => rfl
  | some value => exact writePixel_none d _ hd

theorem imageSize_32768 : imageWidth ⟨32768, 32768⟩ = 32768 ∧ imageHeight ⟨32768, 32768⟩ = 32768 := by
  unfold imageWidth imageHeight glmRound toInt32
  norm_num

theorem sampleTile_overflow :
    rasterizePolygons planarGeometry sampleTile ⟨32768, 32768⟩ [leftTriangle] [0x42F6E979]
      = none := by
  have hsize : resize []
      (toSizeT (toInt32 (toInt32 (toInt32 (32768 * 32768) * 4) * 1))) 0 = [] := by decide
  have hW : toSizeT 32768 = 32768 := by decide
  have hv : triangleVertices leftTriangle 0 = some (⟨0, -2⟩, ⟨0, 4⟩, ⟨1, 1⟩) := by
    simp [triangleVertices, leftTriangle]
  have htri : rasterizeTriangle planarGeometry sampleTile [0x42F6E979] (toInt32 (-1 + 1))
      32768 32768 leftTriangle [] 0 = none := by
    refine rasterizeTriangle_none _ _ _ _ _ _ _ _ _ _ _ _ hv ?_ (by decide) (by decide) ?_
      (by simp)
    · simp [planarGeometry, planarIntersection, sampleTile, triangleBounds]
      norm_num
    · simp [insideTest, projAB, projBC, projCA, pixelCenter, planarGeometry, sampleTile]
      norm_num
  have hloop : rasterizePolygonLoop planarGeometry sampleTile [0x42F6E979] 32768 32768
      [leftTriangle] (-1) [] = none := by
    have hrange : List.range (leftTriangle.indices.length / 3) = [0] := by decide
    unfold rasterizePolygonLoop
    simp only [hrange, List.foldlM_cons, htri, Option.bind_eq_bind, Option.none_bind]
  unfold rasterizePolygons
  simp only [sampleTile_isMixed.1,
    any_intersects_of_isMixed planarGeometry sampleTile [leftTriangle] sampleTile_isMixed,
    Bool.not_true, Bool.false_eq_true, if_false, imageSize_32768.1, imageSize_32768.2, hsize, hW,
    hloop, Option.bind_eq_bind, Option.none_bind]

theorem sampleTile_preconditions (textureSize : DVec2) (hw : 0 ≤ imageWidth textureSize)
    (hh : 0 ≤ imageHeight textureSize) :
    IndexPreconditions planarGeometry sampleTile textureSize [leftTriangle] [0x42F6E979] where
  heights_length := rfl
  indices_lt := by
    intro polygon hmem x hx
    rw [List.mem_singleton] at hmem
    subst hmem
    simp only [leftTriangle, List.mem_cons, List.mem_singleton, List.not_mem_nil, or_false] at hx
    simp only [leftTriangle, List.length_cons, List.length_nil]
    omega
  reported_lt := by
    intro h
    rw [sampleTile_isMixed.1] at h
    cases h
  width_nonneg := hw
  height_nonneg := hh

/-! ### Claims about the full rasterization -/

theorem pixelCenter_eq (geo : Geometry) (rectangle : GlobeRectangle) (width height i j : Nat) :
    pixelCenter geo rectangle width height i j
      = ⟨rectangle.west + geo.computeWidth rectangle * ((i : ℚ) + 1 / 2) / (width : ℚ),
         rectangle.south + geo.computeHeight rectangle * (1 - ((j : ℚ) + 1 / 2) / (height : ℚ))⟩ := by
  unfold pixelCenter
  norm_num

theorem alpha_of_pixelAt (d : List Nat) (k : Nat) (r g b a : Option Nat)
    (h : pixelAt d k = [r, g, b, a]) : d[k * 4 + 3]? = a := by
  unfold pixelAt at h
  simp only [List.cons.injEq, and_true] at h
  exact h.2.2.2

/-- C4: in a Mixed tile (inputs within the index preconditions, buffer size
within `int32_t`) the rasterizer returns a `width` x `height` image in which,
for every pixel of column `i` and row `j`, with centre
`(west + rectangleWidth * (i + 1/2) / width, south + rectangleHeight * (1 - (j + 1/2) / height))`,
the alpha byte is 255 exactly when some polygon has a triangle whose bounding
rectangle intersects the tile rectangle and whose three edge projections at the
pixel centre are all `>= 0` or all `<= 0`; otherwise the four bytes of the
pixel are 0. In particular, for a 2x2 texture and one polygon whose triangles
contain the two left-column pixel centres and neither right-column centre, the
left-column pixels (numbers 0 and 2) hold the encoded height with alpha 255 and
the right-column pixels (numbers 1 and 3) stay 0. -/
theorem mixed_pixel_coverage (geo : Geometry) (rectangle : GlobeRectangle) (textureSize : DVec2)
    (cartographicPolygons : List CartographicPolygon) (flattenHeights : List Nat)
    (hmixed : IsMixed geo rectangle cartographicPolygons)
    (hidx : ∀ polygon ∈ cartographicPolygons, ∀ x ∈ polygon.indices, x < polygon.vertices.length)
    (hlen : flattenHeights.length = cartographicPolygons.length)
    (hcount : cartographicPolygons.length ≤ 2 ^ 31)
    (hw : 0 ≤ imageWidth textureSize) (hh : 0 ≤ imageHeight textureSize)
    (hfit : imageWidth textureSize * imageHeight textureSize * 4 < 2 ^ 31) :
    ∃ d, rasterizePolygons geo rectangle textureSize cartographicPolygons flattenHeights
        = some ⟨⟨imageWidth textureSize, imageHeight textureSize, 4, 1, d⟩, true⟩ ∧
      (∀ i j, i < toSizeT (imageWidth textureSize) → j < toSizeT (imageHeight textureSize) →
        pixelCenter geo rectangle (toSizeT (imageWidth textureSize))
            (toSizeT (imageHeight textureSize)) i j
          = ⟨rectangle.west + geo.computeWidth rectangle * ((i : ℚ) + 1 / 2)
                / (toSizeT (imageWidth textureSize) : ℚ),
             rectangle.south + geo.computeHeight rectangle
                * (1 - ((j : ℚ) + 1 / 2) / (toSizeT (imageHeight textureSize) : ℚ))⟩ ∧
        (d[(toSizeT (imageWidth textureSize) * j + i) * 4 + 3]? = some 255 ↔
          ∃ polygon ∈ cartographicPolygons,
            HasTriangleAt geo rectangle (toSizeT (imageWidth textureSize))
              (toSizeT (imageHeight textureSize)) polygon i j) ∧
        ((¬ ∃ polygon ∈ cartographicPolygons,
            HasTriangleAt geo rectangle (toSizeT (imageWidth textureSize))
              (toSizeT (imageHeight textureSize)) polygon i j) →
          pixelAt d (toSizeT (imageWidth textureSize) * j + i) = blankPixel)) ∧
      (imageWidth textureSize = 2 → imageHeight textureSize = 2 →
        ∀ polygon value, cartographicPolygons = [polygon] → flattenHeights = [value] →
          HasTriangleAt geo rectangle 2 2 polygon 0 0 →
          HasTriangleAt geo rectangle 2 2 polygon 0 1 →
          ¬ HasTriangleAt geo rectangle 2 2 polygon 1 0 →
          ¬ HasTriangleAt geo rectangle 2 2 polygon 1 1 →
          pixelAt d 0 = encodedPixel value ∧ pixelAt d 2 = encodedPixel value ∧
            pixelAt d 1 = blankPixel ∧ pixelAt d 3 = blankPixel) := by
  obtain ⟨d, hres, -, hpix⟩ := rasterizePolygons_mixed geo rectangle textureSize
    cartographicPolygons flattenHeights hmixed hidx hlen hcount hw hh hfit
  refine ⟨d, hres, ?_, ?_⟩
  · intro i j hi hj
    obtain ⟨hblank, hlast⟩ := hpix i j hi hj
    have hnone : (¬ ∃ polygon ∈ cartographicPolygons,
        HasTriangleAt geo rectangle (toSizeT (imageWidth textureSize))
          (toSizeT (imageHeight textureSize)) polygon i j) →
        pixelAt d (toSizeT (imageWidth textureSize) * j + i) = blankPixel := by
      intro hno
      exact hblank (fun polygon hmem hc => hno ⟨polygon, hmem, hc⟩)
    refine ⟨pixelCenter_eq _ _ _ _ _ _, ⟨?_, ?_⟩, hnone⟩
    · intro halpha
      by_contra hno
      have hz := alpha_of_pixelAt d _ _ _ _ _ (hnone hno)
      rw [halpha] at hz
      cases hz
    · intro hex
      obtain ⟨n, polygon, hn, hc, hl⟩ := exists_last
        (fun polygon => HasTriangleAt geo rectangle (toSizeT (imageWidth textureSize))
          (toSizeT (imageHeight textureSize)) polygon i j) cartographicPolygons hex
      obtain ⟨value, -, hp⟩ := hlast n polygon hn hc hl
      exact alpha_of_pixelAt d _ _ _ _ _ hp
  · intro hw2 hh2 polygon value hpolys hheights h00 h01 h10 h11
    rw [hw2, hh2] at hpix
    have hW : toSizeT 2 = 2 := by decide
    rw [hW] at hpix
    subst hpolys
    subst hheights
    have hcov : ∀ i j, i < 2 → j < 2 → HasTriangleAt geo rectangle 2 2 polygon i j →
        pixelAt d (2 * j + i) = encodedPixel value := by
      intro i j hi hj hc
      obtain ⟨v, hv, hp⟩ := (hpix i j hi hj).2 0 polygon rfl hc (by
        intro m later hm hlater
        cases m with
        | zero => omega
        | succ m => simp at hlater)
      simp only [List.getElem?_cons_zero, Option.some.injEq] at hv
      rw [hp, hv]
    have hnot : ∀ i j, i < 2 → j < 2 → ¬ HasTriangleAt geo rectangle 2 2 polygon i j →
        pixelAt d (2 * j + i) = blankPixel := by
      intro i j hi hj hc
      refine (hpix i j hi hj).1 ?_
      intro q hq
      rw [List.mem_singleton] at hq
      subst hq
      exact hc
    exact ⟨hcov 0 0 (by decide) (by decide) h00, hcov 0 1 (by decide) (by decide) h01,
      hnot 1 0 (by decide) (by decide) h10, hnot 1 1 (by decide) (by decide) h11⟩

/-- Instance of `mixed_pixel_coverage` on the tile `[0, 2] x [0, 2]` at 2x2
with the polygon `leftTriangle` and the height 123.456: the left column holds
`0x22 0xF6 0xE9 0xFF` and the right column is 0. -/
theorem mixed_pixel_coverage_witness :
    rasterizePolygons planarGeometry sampleTile ⟨2, 2⟩ [leftTriangle] [0x42F6E979]
        = some ⟨⟨2, 2, 4, 1,
            [0x22, 0xF6, 0xE9, 255, 0, 0, 0, 0, 0x22, 0xF6, 0xE9, 255, 0, 0, 0, 0]⟩, true⟩ ∧
      ∃ d, rasterizePolygons planarGeometry sampleTile ⟨2, 2⟩ [leftTriangle] [0x42F6E979]
          = some ⟨⟨2, 2, 4, 1, d⟩, true⟩ ∧
        pixelAt d 0 = encodedPixel 0x42F6E979 ∧ pixelAt d 2 = encodedPixel 0x42F6E979 ∧
        pixelAt d 1 = blankPixel ∧ pixelAt d 3 = blankPixel := by
  have hpre := sampleTile_preconditions ⟨2, 2⟩ (by rw [imageSize_two.1]; decide)
    (by rw [imageSize_two.2]; decide)
  obtain ⟨d, hres, -, hexample⟩ := mixed_pixel_coverage planarGeometry sampleTile ⟨2, 2⟩
    [leftTriangle] [0x42F6E979] sampleTile_isMixed hpre.indices_lt rfl (by decide)
    hpre.width_nonneg hpre.height_nonneg (by rw [imageSize_two.1, imageSize_two.2]; decide)
  rw [imageSize_two.1, imageSize_two.2] at hres
  exact ⟨sampleTile_result, d, hres, hexample imageSize_two.1 imageSize_two.2 leftTriangle
    0x42F6E979 rfl rfl leftTriangle_covers.1 leftTriangle_covers.2.1 leftTriangle_covers.2.2.1
    leftTriangle_covers.2.2.2⟩

/-- C5: in a Mixed tile, a pixel covered by one or more polygons holds the
encoded height of the covering polygon of greatest index: if polygon number `p`
has a triangle that is not skipped and contains the pixel centre, and no
polygon of greater index has one, then the R, G, B bytes of the pixel are bits
23..16, 15..8 and 7..0 of the encoding of `flattenHeights[p]` (and alpha is
255). -/
theorem last_write_wins (geo : Geometry) (rectangle : GlobeRectangle) (textureSize : DVec2)
    (cartographicPolygons : List CartographicPolygon) (flattenHeights : List Nat)
    (hmixed : IsMixed geo rectangle cartographicPolygons)
    (hidx : ∀ polygon ∈ cartographicPolygons, ∀ x ∈ polygon.indices, x < polygon.vertices.length)
    (hlen : flattenHeights.length = cartographicPolygons.length)
    (hcount : cartographicPolygons.length ≤ 2 ^ 31)
    (hw : 0 ≤ imageWidth textureSize) (hh : 0 ≤ imageHeight textureSize)
    (hfit : imageWidth textureSize * imageHeight textureSize * 4 < 2 ^ 31) :
    ∃ d, rasterizePolygons geo rectangle textureSize cartographicPolygons flattenHeights
        = some ⟨⟨imageWidth textureSize, imageHeight textureSize, 4, 1, d⟩, true⟩ ∧
      ∀ i j, i < toSizeT (imageWidth textureSize) → j < toSizeT (imageHeight textureSize) →
        ∀ (p : Nat) (polygon : CartographicPolygon), cartographicPolygons[p]? = some polygon →
          HasTriangleAt geo rectangle (toSizeT (imageWidth textureSize))
            (toSizeT (imageHeight textureSize)) polygon i j →
          (∀ (q : Nat) (later : CartographicPolygon), p < q → cartographicPolygons[q]? = some later →
            ¬ HasTriangleAt geo rectangle (toSizeT (imageWidth textureSize))
              (toSizeT (imageHeight textureSize)) later i j) →
          ∃ value, flattenHeights[p]? = some value ∧
            d[(toSizeT (imageWidth textureSize) * j + i) * 4]?
              = some (float32ToFloat24 value / 2 ^ 16 % 256) ∧
            d[(toSizeT (imageWidth textureSize) * j + i) * 4 + 1]?
              = some (float32ToFloat24 value / 2 ^ 8 % 256) ∧
            d[(toSizeT (imageWidth textureSize) * j + i) * 4 + 2]?
              = some (float32ToFloat24 value % 256) ∧
            d[(toSizeT (imageWidth textureSize) * j + i) * 4 + 3]? = some 255 := by
  obtain ⟨d, hres, -, hpix⟩ := rasterizePolygons_mixed geo rectangle textureSize
    cartographicPolygons flattenHeights hmixed hidx hlen hcount hw hh hfit
  refine ⟨d, hres, ?_⟩
  intro i j hi hj p polygon hp hc hlast
  obtain ⟨value, hv, hpx⟩ := (hpix i j hi hj).2 p polygon hp hc hlast
  unfold pixelAt encodedPixel at hpx
  simp only [List.cons.injEq, and_true] at hpx
  exact ⟨value, hv, hpx.1, hpx.2.1, hpx.2.2.1, hpx.2.2.2⟩

theorem twoPolygons_isMixed : IsMixed planarGeometry sampleTile [leftTriangle, topTriangle] := by
  refine ⟨?_, leftTriangle, List.mem_cons_self _ _, ⟨0, -2, 1, 4⟩, rfl, ?_⟩
  · simp [planarGeometry, firstContaining, leftTriangle, topTriangle, sampleTile,
      cornersInTriangle, triangleVertices, insideTest, projAB, projBC, projCA, List.range_succ]
    norm_num
  · simp [planarGeometry, planarIntersection, sampleTile]
    norm_num

theorem twoPolygons_indices :
    ∀ polygon ∈ [leftTriangle, topTriangle], ∀ x ∈ polygon.indices, x < polygon.vertices.length := by
  intro polygon hmem x hx
  simp only [List.mem_cons, List.mem_singleton, List.not_mem_nil, or_false] at hmem
  rcases hmem with rfl | rfl
  · simp only [leftTriangle, List.mem_cons, List.mem_singleton, List.not_mem_nil, or_false] at hx
    simp only [leftTriangle, List.length_cons, List.length_nil]
    omega
  · simp only [topTriangle, List.mem_cons, List.mem_singleton, List.not_mem_nil, or_false] at hx
    simp only [topTriangle, List.length_cons, List.length_nil]
    omega

theorem topTriangle_covers : HasTriangleAt planarGeometry sampleTile 2 2 topTriangle 0 0 := by
  rw [← polygonCovers_iff]
  simp [polygonCovers, triangleCovers, triangleVertices, topTriangle, planarGeometry,
    planarIntersection, sampleTile, triangleBounds, List.range_succ, insideTest, projAB, projBC,
    projCA, pixelCenter]
  norm_num

/-- Instance of `last_write_wins`: the top-left pixel of the 2x2 example is
covered by polygon 0 (height 123.456) and polygon 1 (height 10.0) and holds the
encoding `0x212000` of 10.0. -/
theorem last_write_wins_witness :
    ∃ d, rasterizePolygons planarGeometry sampleTile ⟨2, 2⟩ [leftTriangle, topTriangle]
          [0x42F6E979, 0x41200000] = some ⟨⟨2, 2, 4, 1, d⟩, true⟩ ∧
      HasTriangleAt planarGeometry sampleTile 2 2 leftTriangle 0 0 ∧
      HasTriangleAt planarGeometry sampleTile 2 2 topTriangle 0 0 ∧
      d[0]? = some 0x21 ∧ d[1]? = some 0x20 ∧ d[2]? = some 0x00 ∧ d[3]? = some 255 := by
  obtain ⟨d, hres, hpix⟩ := last_write_wins planarGeometry sampleTile ⟨2, 2⟩
    [leftTriangle, topTriangle] [0x42F6E979, 0x41200000] twoPolygons_isMixed twoPolygons_indices
    rfl (by decide) (by rw [imageSize_two.1]; decide) (by rw [imageSize_two.2]; decide)
    (by rw [imageSize_two.1, imageSize_two.2]; decide)
  rw [imageSize_two.1, imageSize_two.2] at hres hpix
  have hW : toSizeT 2 = 2 := by decide
  rw [hW] at hpix
  obtain ⟨value, hv, h0, h1, h2, h3⟩ := hpix 0 0 (by decide) (by decide) 1 topTriangle rfl
    topTriangle_covers (by
      intro q later hq hlater
      have : q = q - 2 + 2 := by omega
      rw [this] at hlater
      simp at hlater)
  simp only [List.getElem?_cons_succ, List.getElem?_cons_zero, Option.some.injEq] at hv
  subst hv
  have henc : float32ToFloat24 0x41200000 = 0x212000 := by decide
  rw [henc] at h0 h1 h2
  exact ⟨d, hres, leftTriangle_covers.1, topTriangle_covers, h0, h1, h2, h3⟩

/-- C9, as stated, fails: the tile `[0, 2] x [0, 2]` with the polygon
`leftTriangle` and the texture size 32768 x 32768 meets every listed
precondition, yet `width * height * 4 = 2 ^ 32` wraps to 0 in `int32_t`, the
buffer is empty, and the first pixel store is out of bounds. -/
theorem index_safety_fails_on_overflow :
    IndexPreconditions planarGeometry sampleTile ⟨32768, 32768⟩ [leftTriangle] [0x42F6E979] ∧
      rasterizePolygons planarGeometry sampleTile ⟨32768, 32768⟩ [leftTriangle] [0x42F6E979]
        = none :=
  ⟨sampleTile_preconditions ⟨32768, 32768⟩ (by rw [imageSize_32768.1]; decide)
    (by rw [imageSize_32768.2]; decide), sampleTile_overflow⟩

/-- C9, amended: if there is one height per polygon, every triangulation index
is below the vertex count of its polygon, an index reported by the containment
test is an index into the polygons, the rounded texture dimensions are
non-negative, and moreover no `int` computation overflows (at most `2 ^ 31`
polygons, `width * height * 4` below `2 ^ 31`), then `rasterizePolygons`
returns: every access `flattenHeights[index]`, `vertices[indices[3t+k]]` and
every pixel store is in bounds. -/
theorem index_safety (geo : Geometry) (rectangle : GlobeRectangle) (textureSize : DVec2)
    (cartographicPolygons : List CartographicPolygon) (flattenHeights : List Nat)
    (hpre : IndexPreconditions geo rectangle textureSize cartographicPolygons flattenHeights)
    (hcount : cartographicPolygons.length ≤ 2 ^ 31)
    (hfit : imageWidth textureSize * imageHeight textureSize * 4 < 2 ^ 31) :
    ∃ loaded, rasterizePolygons geo rectangle textureSize cartographicPolygons flattenHeights
      = some loaded :=
  rasterizePolygons_returns geo rectangle textureSize cartographicPolygons flattenHeights hpre
    hcount hfit

/-- Instance of `index_safety` on the 2x2 example. -/
theorem index_safety_witness :
    IndexPreconditions planarGeometry sampleTile ⟨2, 2⟩ [leftTriangle] [0x42F6E979] ∧
      ∃ loaded, rasterizePolygons planarGeometry sampleTile ⟨2, 2⟩ [leftTriangle] [0x42F6E979]
        = some loaded :=
  ⟨sampleTile_preconditions ⟨2, 2⟩ (by rw [imageSize_two.1]; decide)
      (by rw [imageSize_two.2]; decide),
    index_safety planarGeometry sampleTile ⟨2, 2⟩ [leftTriangle] [0x42F6E979]
      (sampleTile_preconditions ⟨2, 2⟩ (by rw [imageSize_two.1]; decide)
        (by rw [imageSize_two.2]; decide))
      (by decide) (by rw [imageSize_two.1, imageSize_two.2]; decide)⟩

/-- C10: when the rounded texture dimensions are non-negative and their
product times 4 fits a 32-bit signed integer, every image `rasterizePolygons`
produces has 4 channels of 1 byte and a buffer of `width * height * 4` bytes, on
all three paths; and under the index preconditions (with at most `2 ^ 31`
polygons) an image is produced. -/
theorem image_invariant (geo : Geometry) (rectangle : GlobeRectangle) (textureSize : DVec2)
    (cartographicPolygons : List CartographicPolygon) (flattenHeights : List Nat)
    (hw : 0 ≤ imageWidth textureSize) (hh : 0 ≤ imageHeight textureSize)
    (hfit : imageWidth textureSize * imageHeight textureSize * 4 < 2 ^ 31) :
    (∀ loaded, rasterizePolygons geo rectangle textureSize cartographicPolygons flattenHeights
        = some loaded →
      loaded.image.channels = 4 ∧ loaded.image.bytesPerChannel = 1 ∧
        (loaded.image.pixelData.length : Int) = loaded.image.width * loaded.image.height * 4) ∧
    (IndexPreconditions geo rectangle textureSize cartographicPolygons flattenHeights →
      cartographicPolygons.length ≤ 2 ^ 31 →
      ∃ loaded, rasterizePolygons geo rectangle textureSize cartographicPolygons flattenHeights
        = some loaded) := by
  refine ⟨?_, fun hpre hcount => rasterizePolygons_returns geo rectangle textureSize
    cartographicPolygons flattenHeights hpre hcount hfit⟩
  intro loaded hres
  unfold rasterizePolygons at hres
  by_cases hwithin : (geo.withinPolygonsAndReturnIndex rectangle cartographicPolygons).1 = true
  · simp only [hwithin, if_true, resize_nil_four, resize_four_four, Option.bind_eq_bind,
      Option.bind_eq_some] at hres
    obtain ⟨value, -, d1, h1, d2, h2, d3, h3, d4, h4, hres⟩ := hres
    have hlen : d4.length = 4 := by
      rw [writeByte_length _ _ _ _ h4, writeByte_length _ _ _ _ h3, writeByte_length _ _ _ _ h2,
        writeByte_length _ _ _ _ h1]
      rfl
    cases hres
    simp [hlen]
  · have hfalse : (geo.withinPolygonsAndReturnIndex rectangle cartographicPolygons).1 = false := by
      simpa using hwithin
    simp only [hfalse, Bool.false_eq_true, if_false] at hres
    split at hres
    · simp only [resize_nil_four, Option.bind_eq_bind, Option.bind_eq_some] at hres
      obtain ⟨d1, h1, d2, h2, d3, h3, d4, h4, hres⟩ := hres
      have hlen : d4.length = 4 := by
        rw [writeByte_length _ _ _ _ h4, writeByte_length _ _ _ _ h3, writeByte_length _ _ _ _ h2,
          writeByte_length _ _ _ _ h1]
        rfl
      cases hres
      simp [hlen]
    · simp only [Option.bind_eq_bind, Option.bind_eq_some] at hres
      obtain ⟨d, hloop, hres⟩ := hres
      have hdlen := rasterizePolygonLoop_length _ _ _ _ _ _ _ _ _ hloop
      obtain ⟨hsz, -, hcast⟩ := buffer_size _ _ hw hh (toInt32_bounds _).2 (toInt32_bounds _).2 hfit
      rw [resize_nil, List.length_replicate, hsz] at hdlen
      cases hres
      refine ⟨rfl, rfl, ?_⟩
      show (d.length : Int) = _
      rw [hdlen]
      exact hcast

/-- Instance of `image_invariant` on the 2x2 example: 16 bytes. -/
theorem image_invariant_witness :
    ∃ loaded, rasterizePolygons planarGeometry sampleTile ⟨2, 2⟩ [leftTriangle] [0x42F6E979]
        = some loaded ∧
      loaded.image.channels = 4 ∧ loaded.image.bytesPerChannel = 1 ∧
        (loaded.image.pixelData.length : Int) = loaded.image.width * loaded.image.height * 4 :=
  ⟨_, sampleTile_result,
    (image_invariant planarGeometry sampleTile ⟨2, 2⟩ [leftTriangle] [0x42F6E979]
      (by rw [imageSize_two.1]; decide) (by rw [imageSize_two.2]; decide)
      (by rw [imageSize_two.1, imageSize_two.2]; decide)).1 _ sampleTile_result⟩

/-! ### Further claims about the height codec -/

/-- The encoder output as three fields: sign, an exponent of at most 127 and a
15-bit mantissa. -/
theorem float32ToFloat24_fields (b : Nat) :
    ∃ e m, e ≤ 127 ∧ m < 2 ^ 15 ∧
      float32ToFloat24 b = (b / 2 ^ 31 % 2) * 2 ^ 23 + e * 2 ^ 15 + m := by
  unfold float32ToFloat24
  simp only [and_one_eq_mod, and_FF_eq_mod, and_7FFFFF_eq_mod, Nat.shiftRight_eq_div_pow]
  by_cases hnz : floatNeZero b = true
  · simp only [hnz, if_true]
    by_cases hgt : (b / 2 ^ 23 % 256 + 2 ^ 32 - 127 + 63) % 2 ^ 32 > 127
    · simp only [hgt, if_true]
      refine ⟨127, 0xFFF, by omega, by omega, ?_⟩
      rw [or_fields 23 15 _ _ _ (by omega) (by omega) (by omega)]
      omega
    · simp only [hgt, if_false, Nat.not_lt_zero]
      refine ⟨(b / 2 ^ 23 % 256 + 2 ^ 32 - 127 + 63) % 2 ^ 32, b % 8388608 / 2 ^ 8,
        by omega, by omega, ?_⟩
      rw [or_fields 23 15 _ _ _ (by omega) (by omega) (by omega)]
      omega
  · have hz : b % 2147483648 = 0 := by
      by_contra h
      exact hnz ((floatNeZero_iff b).2 h)
    have he : b / 2 ^ 23 % 256 = 0 := by omega
    have hm : b % 8388608 = 0 := by omega
    have h127 : ¬ (0 > 127) := by omega
    simp only [hnz, Bool.false_eq_true, if_false, he, hm, h127, Nat.lt_irrefl]
    refine ⟨0, 0, by omega, by omega, ?_⟩
    rw [or_fields 23 15 _ _ _ (by omega) (by omega) (by omega)]
    omega

/-- C14: for every float32 bit pattern the encoder returns a word below
`2 ^ 24` whose bit 23 is the sign bit of the input and whose exponent field
(bits 22..15) is at most 127. -/
theorem float32ToFloat24_range (float32Bits : Nat) :
    float32ToFloat24 float32Bits < 2 ^ 24 ∧
      float32ToFloat24 float32Bits / 2 ^ 23 = float32Bits / 2 ^ 31 % 2 ∧
      float32ToFloat24 float32Bits / 2 ^ 15 % 256 ≤ 127 := by
  obtain ⟨e, m, he, hm, h⟩ := float32ToFloat24_fields float32Bits
  rw [h]
  refine ⟨by omega, by omega, by omega⟩


/-- Decoding a word whose exponent and mantissa fields are both 0. -/
theorem float24ToFloat32_zero_fields (fuel w : Nat) (he : w / 2 ^ 15 % 256 = 0)
    (hm : w % 2 ^ 15 = 0) : float24ToFloat32 fuel w = some 0 := by
  unfold float24ToFloat32
  simp only [and_FF_eq_mod, and_7FFF_eq_mod, Nat.shiftRight_eq_div_pow, Nat.shiftLeft_eq]
  have hm0 : w % 32768 * 2 ^ 8 % 2 ^ 32 = 0 := by omega
  simp only [he, hm0, if_true, ne_eq, not_true_eq_false, if_false]

/-- C17: the decoder returns the bit pattern of `+0.0` both for the word
`0x000000` and for the word `0x800000` (sign bit set, exponent and mantissa
fields 0, the encoding of `-0.0`): the sign bit does not reach the result, so
`0x800000` does not decode to `-0.0` (bit pattern `0x80000000`). -/
theorem float24ToFloat32_drops_zero_sign :
    float32ToFloat24 0x80000000 = 0x800000 ∧
      ∀ fuel, float24ToFloat32 fuel 0x000000 = some 0x00000000 ∧
        float24ToFloat32 fuel 0x800000 = some 0x00000000 ∧
        float24ToFloat32 fuel 0x800000 ≠ some 0x80000000 := by
  refine ⟨by decide, fun fuel => ?_⟩
  have h0 := float24ToFloat32_zero_fields fuel 0x000000 (by decide) (by decide)
  have h1 := float24ToFloat32_zero_fields fuel 0x800000 (by decide) (by decide)
  refine ⟨h0, h1, ?_⟩
  rw [h1]
  decide

theorem and_FFFFFF00 (b : Nat) (hb : b < 2 ^ 32) : b &&& 0xFFFFFF00 = b / 256 * 256 := by
  have hmask : (0xFFFFFF00 : Nat) = 2 ^ 8 * (2 ^ 24 - 1) := by norm_num
  have hdiv : b / 256 * 256 = 2 ^ 8 * (b >>> 8) := by
    rw [Nat.shiftRight_eq_div_pow]
    omega
  rw [hmask, hdiv]
  apply Nat.eq_of_testBit_eq
  intro i
  rw [Nat.testBit_and, Nat.testBit_mul_pow_two, Nat.testBit_mul_pow_two,
    Nat.testBit_two_pow_sub_one, Nat.testBit_shiftRight]
  by_cases h8 : 8 ≤ i
  · have hi : 8 + (i - 8) = i := by omega
    simp only [ge_iff_le, h8, decide_True, Bool.true_and, hi]
    by_cases h32 : i < 32
    · have : i - 8 < 24 := by omega
      simp [this]
    · have hfalse : b.testBit i = false :=
        Nat.testBit_lt_two_pow (Nat.lt_of_lt_of_le hb (Nat.pow_le_pow_right (by decide) (by omega)))
      have : ¬ (i - 8 < 24) := by omega
      simp [this, hfalse]
  · simp [h8]

/-- C18: for every float32 bit pattern `b` with biased exponent field in
`65..190`, decoding the encoding returns the bit pattern `b AND 0xFFFFFF00`:
sign and exponent unchanged, the low eight mantissa bits cleared; encoding
that value again gives the same 24-bit word. -/
theorem truncation_bit_exact (b : Nat) (hb : b < 2 ^ 32) (h1 : 65 ≤ float32Exponent b)
    (h2 : float32Exponent b ≤ 190) :
    (∀ fuel, float24ToFloat32 fuel (float32ToFloat24 b) = some (b &&& 0xFFFFFF00)) ∧
      float32Sign (b &&& 0xFFFFFF00) = float32Sign b ∧
      float32Exponent (b &&& 0xFFFFFF00) = float32Exponent b ∧
      (b &&& 0xFFFFFF00) % 2 ^ 23 = b % 2 ^ 23 - b % 2 ^ 8 ∧
      float32ToFloat24 (b &&& 0xFFFFFF00) = float32ToFloat24 b := by
  unfold float32Exponent at h1 h2
  rw [and_FFFFFF00 b hb]
  unfold float32Sign float32Exponent
  refine ⟨fun fuel => roundTrip_bits fuel b hb h1 h2, by omega, by omega, by omega, ?_⟩
  rw [float32ToFloat24_mid b (by omega) (by omega),
    float32ToFloat24_mid (b / 256 * 256) (by omega) (by omega)]
  omega

/-- Instance of `truncation_bit_exact` at `x = 123.456` (`0x42F6E979`): the
round trip returns `0x42F6E900`. -/
theorem truncation_bit_exact_witness :
    (∀ fuel, float24ToFloat32 fuel (float32ToFloat24 0x42F6E979) = some 0x42F6E900) ∧
      float32ToFloat24 0x42F6E900 = float32ToFloat24 0x42F6E979 :=
  ⟨(truncation_bit_exact 0x42F6E979 (by decide) (by decide) (by decide)).1,
    (truncation_bit_exact 0x42F6E979 (by decide) (by decide) (by decide)).2.2.2.2⟩

/-- C19: for every float32 `b` that is not a zero and whose biased exponent
field is below 64, the `uint32_t` rebias `exponent - 127 + 63` wraps to a value
above 127, and the encoder returns the word of the overflow branch: the same
word as for any same-signed `c` with exponent field 192 or more, namely
`sign << 23 | 127 << 15 | 0xFFF`, whose exponent field is 127 (never a zero or
small-magnitude word). -/
theorem small_magnitude_saturates (b c : Nat) (hnz : b % 2 ^ 31 ≠ 0)
    (he : float32Exponent b < 64) (hc : 192 ≤ float32Exponent c)
    (hs : float32Sign c = float32Sign b) :
    (float32Exponent b + 2 ^ 32 - 127 + 63) % 2 ^ 32 > 127 ∧
      float32ToFloat24 b = float32ToFloat24 c ∧
      float32ToFloat24 b = (float32Sign b <<< 23) ||| (127 <<< 15) ||| 0xFFF ∧
      float32ToFloat24 b / 2 ^ 15 % 256 = 127 ∧ float32ToFloat24 b ≠ 0 := by
  unfold float32Exponent at he hc
  unfold float32Sign at hs
  have hcnz : c % 2 ^ 31 ≠ 0 := by omega
  have hb := float32ToFloat24_saturated b hnz (Or.inl he)
  have hcs := float32ToFloat24_saturated c hcnz (Or.inr hc)
  unfold float32Exponent float32Sign
  refine ⟨by omega, by rw [hb, hcs, hs], ?_, by omega, by omega⟩
  rw [hb, or_fields 23 15 _ _ _ (by omega) (by omega) (by omega)]

/-- Instance of `small_magnitude_saturates`: `2 ^ (-100)` (`0x0D800000`) and
`2 ^ 65` (`0x60000000`) have the same encoding `0x3F8FFF`. -/
theorem small_magnitude_saturates_witness :
    float32ToFloat24 0x0D800000 = float32ToFloat24 0x60000000 ∧
      float32ToFloat24 0x0D800000 = 0x3F8FFF :=
  ⟨(small_magnitude_saturates 0x0D800000 0x60000000 (by decide) (by decide) (by decide)
      (by decide)).2.1,
    (small_magnitude_saturates 0x0D800000 0x60000000 (by decide) (by decide) (by decide)
      (by decide)).2.2.1.trans (by decide)⟩

/-! ### Geometry of the inside test -/

/-- The projections of a rotated triangle are the projections of the
triangle, rotated. -/
theorem proj_rotate (a b c v : DVec2) :
    projAB b c a v = projBC a b c v ∧ projBC b c a v = projCA a b c v ∧
      projCA b c a v = projAB a b c v := by
  unfold projAB projBC projCA
  refine ⟨by ring, by ring, by ring⟩

/-- Exchanging two vertices negates the projections. -/
theorem proj_swap (a b c v : DVec2) :
    projAB b a c v = -projAB a b c v ∧ projBC b a c v = -projCA a b c v ∧
      projCA b a c v = -projBC a b c v := by
  unfold projAB projBC projCA
  refine ⟨by ring, by ring, by ring⟩

theorem projectionsAgree_rotate (a b c v : DVec2) :
    ProjectionsAgree b c a v ↔ ProjectionsAgree a b c v := by
  obtain ⟨h1, h2, h3⟩ := proj_rotate a b c v
  unfold ProjectionsAgree
  rw [h1, h2, h3]
  constructor
  · rintro (⟨x, y, z⟩ | ⟨x, y, z⟩)
    · exact Or.inl ⟨z, x, y⟩
    · exact Or.inr ⟨z, x, y⟩
  · rintro (⟨x, y, z⟩ | ⟨x, y, z⟩)
    · exact Or.inl ⟨y, z, x⟩
    · exact Or.inr ⟨y, z, x⟩

theorem projectionsAgree_swap (a b c v : DVec2) :
    ProjectionsAgree b a c v ↔ ProjectionsAgree a b c v := by
  obtain ⟨h1, h2, h3⟩ := proj_swap a b c v
  unfold ProjectionsAgree
  rw [h1, h2, h3]
  simp only [Left.nonneg_neg_iff, Left.neg_nonpos_iff]
  constructor
  · rintro (⟨x, y, z⟩ | ⟨x, y, z⟩)
    · exact Or.inr ⟨x, z, y⟩
    · exact Or.inl ⟨x, z, y⟩
  · rintro (⟨x, y, z⟩ | ⟨x, y, z⟩)
    · exact Or.inr ⟨x, z, y⟩
    · exact Or.inl ⟨x, z, y⟩

theorem insideTest_eq_of_iff (a b c a' b' c' v : DVec2)
    (h : ProjectionsAgree a' b' c' v ↔ ProjectionsAgree a b c v) :
    insideTest a' b' c' v = insideTest a b c v := by
  rw [Bool.eq_iff_iff, insideTest_iff, insideTest_iff]
  exact h

/-- C13: the inside test of the rasterizer gives the same answer for all six
orderings of the three vertices, for every triangle and every point. -/
theorem insideTest_winding_agnostic (a b c v : DVec2) :
    insideTest b c a v = insideTest a b c v ∧ insideTest c a b v = insideTest a b c v ∧
      insideTest b a c v = insideTest a b c v ∧ insideTest a c b v = insideTest a b c v ∧
      insideTest c b a v = insideTest a b c v := by
  have rot := projectionsAgree_rotate
  have swp := projectionsAgree_swap
  refine ⟨insideTest_eq_of_iff _ _ _ _ _ _ _ (rot a b c v),
    insideTest_eq_of_iff _ _ _ _ _ _ _ ((rot b c a v).trans (rot a b c v)),
    insideTest_eq_of_iff _ _ _ _ _ _ _ (swp a b c v),
    insideTest_eq_of_iff _ _ _ _ _ _ _ ?_, insideTest_eq_of_iff _ _ _ _ _ _ _ ?_⟩
  · exact (rot b a c v).trans (swp a b c v)
  · exact (rot a c b v).trans ((rot b a c v).trans (swp a b c v))


/-- The three projections add up to twice the signed area. -/
theorem proj_sum (a b c v : DVec2) :
    projAB a b c v + projBC a b c v + projCA a b c v = signedArea2 a b c := by
  unfold projAB projBC projCA signedArea2
  ring

/-- The projections are barycentric weights of `v`. -/
theorem proj_barycentric (a b c v : DVec2) :
    v.x * signedArea2 a b c
        = a.x * projBC a b c v + b.x * projCA a b c v + c.x * projAB a b c v ∧
      v.y * signedArea2 a b c
        = a.y * projBC a b c v + b.y * projCA a b c v + c.y * projAB a b c v := by
  unfold projAB projBC projCA signedArea2
  refine ⟨by ring, by ring⟩

/-- A weighted mean with non-negative weights lies between the least and the
greatest of the three values. -/
theorem weighted_mean_bounds (x1 x2 x3 w1 w2 w3 t D : ℚ) (h1 : 0 ≤ w1) (h2 : 0 ≤ w2)
    (h3 : 0 ≤ w3) (hD : w1 + w2 + w3 = D) (hpos : 0 < D)
    (ht : t * D = x1 * w1 + x2 * w2 + x3 * w3) :
    min x1 (min x2 x3) ≤ t ∧ t ≤ max x1 (max x2 x3) := by
  have hm1 : min x1 (min x2 x3) ≤ x1 := min_le_left _ _
  have hm2 : min x1 (min x2 x3) ≤ x2 := le_trans (min_le_right _ _) (min_le_left _ _)
  have hm3 : min x1 (min x2 x3) ≤ x3 := le_trans (min_le_right _ _) (min_le_right _ _)
  have hM1 : x1 ≤ max x1 (max x2 x3) := le_max_left _ _
  have hM2 : x2 ≤ max x1 (max x2 x3) := le_trans (le_max_left _ _) (le_max_right _ _)
  have hM3 : x3 ≤ max x1 (max x2 x3) := le_trans (le_max_right _ _) (le_max_right _ _)
  generalize min x1 (min x2 x3) = m at hm1 hm2 hm3 ⊢
  generalize max x1 (max x2 x3) = M at hM1 hM2 hM3 ⊢
  constructor
  · have h : m * D ≤ t * D := by
      rw [ht, ← hD]
      have e1 := mul_le_mul_of_nonneg_right hm1 h1
      have e2 := mul_le_mul_of_nonneg_right hm2 h2
      have e3 := mul_le_mul_of_nonneg_right hm3 h3
      linarith
    exact le_of_mul_le_mul_right h hpos
  · have h : t * D ≤ M * D := by
      rw [ht, ← hD]
      have e1 := mul_le_mul_of_nonneg_right hM1 h1
      have e2 := mul_le_mul_of_nonneg_right hM2 h2
      have e3 := mul_le_mul_of_nonneg_right hM3 h3
      linarith
    exact le_of_mul_le_mul_right h hpos

/-- A point that passes the inside test of a triangle of non-zero area lies in
the bounding rectangle of the triangle. -/
theorem inside_in_bounds (a b c v : DVec2) (harea : signedArea2 a b c ≠ 0)
    (hin : insideTest a b c v = true) : InRectangle (triangleBounds a b c) v := by
  rw [insideTest_iff] at hin
  have hsum := proj_sum a b c v
  obtain ⟨hx, hy⟩ := proj_barycentric a b c v
  unfold InRectangle triangleBounds
  dsimp only
  rcases hin with ⟨h1, h2, h3⟩ | ⟨h1, h2, h3⟩
  · have hpos : 0 < signedArea2 a b c :=
      lt_of_le_of_ne (by rw [← hsum]; linarith) (Ne.symm harea)
    have bx := weighted_mean_bounds a.x b.x c.x (projBC a b c v) (projCA a b c v)
      (projAB a b c v) v.x (signedArea2 a b c) h2 h3 h1 (by rw [← hsum]; ring) hpos hx
    have by' := weighted_mean_bounds a.y b.y c.y (projBC a b c v) (projCA a b c v)
      (projAB a b c v) v.y (signedArea2 a b c) h2 h3 h1 (by rw [← hsum]; ring) hpos hy
    exact ⟨bx.1, bx.2, by'.1, by'.2⟩
  · have hneg : 0 < -signedArea2 a b c := by
      have : signedArea2 a b c < 0 := lt_of_le_of_ne (by rw [← hsum]; linarith) harea
      linarith
    have bx := weighted_mean_bounds a.x b.x c.x (-projBC a b c v) (-projCA a b c v)
      (-projAB a b c v) v.x (-signedArea2 a b c) (by linarith) (by linarith) (by linarith)
      (by rw [← hsum]; ring) hneg (by rw [mul_neg, hx]; ring)
    have by' := weighted_mean_bounds a.y b.y c.y (-projBC a b c v) (-projCA a b c v)
      (-projAB a b c v) v.y (-signedArea2 a b c) (by linarith) (by linarith) (by linarith)
      (by rw [← hsum]; ring) hneg (by rw [mul_neg, hy]; ring)
    exact ⟨bx.1, bx.2, by'.1, by'.2⟩

/-- Pixel centres lie strictly inside the tile rectangle when its width is
`east - west` and its height `north - south`. -/
theorem pixelCenter_strictly_inside (geo : Geometry) (rectangle : GlobeRectangle)
    (width height i j : Nat)
    (hwidth : geo.computeWidth rectangle = rectangle.east - rectangle.west)
    (hheight : geo.computeHeight rectangle = rectangle.north - rectangle.south)
    (hwe : rectangle.west < rectangle.east) (hsn : rectangle.south < rectangle.north)
    (hi : i < width) (hj : j < height) :
    rectangle.west < (pixelCenter geo rectangle width height i j).x ∧
      (pixelCenter geo rectangle width height i j).x < rectangle.east ∧
      rectangle.south < (pixelCenter geo rectangle width height i j).y ∧
      (pixelCenter geo rectangle width height i j).y < rectangle.north := by
  rw [pixelCenter_eq, hwidth, hheight]
  dsimp only
  have hW : (0 : ℚ) < width := by exact_mod_cast (Nat.lt_of_le_of_lt (Nat.zero_le i) hi)
  have hH : (0 : ℚ) < height := by exact_mod_cast (Nat.lt_of_le_of_lt (Nat.zero_le j) hj)
  have hi' : (i : ℚ) + 1 ≤ width := by exact_mod_cast hi
  have hj' : (j : ℚ) + 1 ≤ height := by exact_mod_cast hj
  have hi0 : (0 : ℚ) ≤ i := Nat.cast_nonneg i
  have hj0 : (0 : ℚ) ≤ j := Nat.cast_nonneg j
  have hdx : 0 < rectangle.east - rectangle.west := by linarith
  have hdy : 0 < rectangle.north - rectangle.south := by linarith
  have tx0 : 0 < ((i : ℚ) + 1 / 2) / width := div_pos (by linarith) hW
  have tx1 : ((i : ℚ) + 1 / 2) / width < 1 := by
    rw [div_lt_one hW]
    linarith
  have ty0 : 0 < ((j : ℚ) + 1 / 2) / height := div_pos (by linarith) hH
  have ty1 : ((j : ℚ) + 1 / 2) / height < 1 := by
    rw [div_lt_one hH]
    linarith
  have ex : (rectangle.east - rectangle.west) * ((i : ℚ) + 1 / 2) / width
      = (rectangle.east - rectangle.west) * (((i : ℚ) + 1 / 2) / width) := by ring
  rw [ex]
  generalize ((i : ℚ) + 1 / 2) / width = tx at tx0 tx1
  generalize ((j : ℚ) + 1 / 2) / height = ty at ty0 ty1
  refine ⟨by nlinarith, by nlinarith, by nlinarith, by nlinarith⟩


/-- A triangle whose bounding rectangle has no width or no height has no area. -/
theorem bounds_proper (a b c : DVec2) (harea : signedArea2 a b c ≠ 0) :
    (triangleBounds a b c).west < (triangleBounds a b c).east ∧
      (triangleBounds a b c).south < (triangleBounds a b c).north := by
  unfold triangleBounds
  dsimp only
  constructor
  · by_contra hnot
    have hle : max a.x (max b.x c.x) ≤ min a.x (min b.x c.x) := not_lt.1 hnot
    have h1 : b.x = a.x := le_antisymm
      (le_trans (le_trans (le_max_left _ _) (le_max_right _ _)) (le_trans hle (min_le_left _ _)))
      (le_trans (le_max_left _ _) (le_trans hle (le_trans (min_le_right _ _) (min_le_left _ _))))
    have h2 : c.x = a.x := le_antisymm
      (le_trans (le_trans (le_max_right _ _) (le_max_right _ _)) (le_trans hle (min_le_left _ _)))
      (le_trans (le_max_left _ _) (le_trans hle (le_trans (min_le_right _ _) (min_le_right _ _))))
    apply harea
    unfold signedArea2
    rw [h1, h2]
    ring
  · by_contra hnot
    have hle : max a.y (max b.y c.y) ≤ min a.y (min b.y c.y) := not_lt.1 hnot
    have h1 : b.y = a.y := le_antisymm
      (le_trans (le_trans (le_max_left _ _) (le_max_right _ _)) (le_trans hle (min_le_left _ _)))
      (le_trans (le_max_left _ _) (le_trans hle (le_trans (min_le_right _ _) (min_le_left _ _))))
    have h2 : c.y = a.y := le_antisymm
      (le_trans (le_trans (le_max_right _ _) (le_max_right _ _)) (le_trans hle (min_le_left _ _)))
      (le_trans (le_max_left _ _) (le_trans hle (le_trans (min_le_right _ _) (min_le_right _ _))))
    apply harea
    unfold signedArea2
    rw [h1, h2]
    ring

/-- C20: in exact arithmetic, a point that passes the inside test of a
triangle of non-zero area lies in the triangle's bounding rectangle
`[min x, max x] x [min y, max y]`. Hence, for a tile of width `east - west` and
height `north - south`, a triangle of non-zero area whose bounding rectangle
shares no point with the tile rectangle passes the inside test at no pixel
centre; and the same holds for a triangle that the planar intersection test
rejects (no overlap of positive area). -/
theorem bounding_reject_loses_no_pixel (a b c : DVec2) (harea : signedArea2 a b c ≠ 0) :
    (∀ v, insideTest a b c v = true → InRectangle (triangleBounds a b c) v) ∧
    (∀ (geo : Geometry) (rectangle : GlobeRectangle) (width height i j : Nat),
      geo.computeWidth rectangle = rectangle.east - rectangle.west →
      geo.computeHeight rectangle = rectangle.north - rectangle.south →
      rectangle.west < rectangle.east → rectangle.south < rectangle.north →
      i < width → j < height →
      (∀ p, InRectangle (triangleBounds a b c) p → ¬ InRectangle rectangle p) →
      insideTest a b c (pixelCenter geo rectangle width height i j) = false) ∧
    (∀ (rectangle : GlobeRectangle) (width height i j : Nat),
      rectangle.west < rectangle.east → rectangle.south < rectangle.north →
      i < width → j < height →
      planarGeometry.computeIntersection rectangle (triangleBounds a b c) = none →
      insideTest a b c (pixelCenter planarGeometry rectangle width height i j) = false) := by
  refine ⟨fun v hin => inside_in_bounds a b c v harea hin, ?_, ?_⟩
  · intro geo rectangle width height i j hwidth hheight hwe hsn hi hj hdisjoint
    by_contra hne
    have hin : insideTest a b c (pixelCenter geo rectangle width height i j) = true := by
      simpa using hne
    obtain ⟨x0, x1, y0, y1⟩ := pixelCenter_strictly_inside geo rectangle width height i j
      hwidth hheight hwe hsn hi hj
    exact hdisjoint _ (inside_in_bounds a b c _ harea hin) ⟨x0.le, x1.le, y0.le, y1.le⟩
  · intro rectangle width height i j hwe hsn hi hj hnone
    by_contra hne
    have hin : insideTest a b c (pixelCenter planarGeometry rectangle width height i j) = true := by
      simpa using hne
    obtain ⟨x0, x1, y0, y1⟩ := pixelCenter_strictly_inside planarGeometry rectangle width height
      i j rfl rfl hwe hsn hi hj
    obtain ⟨bx0, bx1, by0, by1⟩ := inside_in_bounds a b c _ harea hin
    obtain ⟨hbx, hby⟩ := bounds_proper a b c harea
    have hx : max rectangle.west (triangleBounds a b c).west
        < min rectangle.east (triangleBounds a b c).east :=
      max_lt (lt_min hwe (lt_of_lt_of_le x0 bx1)) (lt_min (lt_of_le_of_lt bx0 x1) hbx)
    have hy : max rectangle.south (triangleBounds a b c).south
        < min rectangle.north (triangleBounds a b c).north :=
      max_lt (lt_min hsn (lt_of_lt_of_le y0 by1)) (lt_min (lt_of_le_of_lt by0 y1) hby)
    have hsome : planarGeometry.computeIntersection rectangle (triangleBounds a b c) ≠ none := by
      show planarIntersection rectangle (triangleBounds a b c) ≠ none
      unfold planarIntersection
      dsimp only
      rw [if_neg (not_le.2 hx), if_neg (not_le.2 hy)]
      exact Option.some_ne_none _
    exact hsome hnone

/-- Instance of `bounding_reject_loses_no_pixel`: the triangle
`(5, 5), (6, 5), (5, 6)` is rejected for the tile `[0, 2] x [0, 2]` and passes
the inside test at none of the four pixel centres of a 2x2 texture. -/
theorem bounding_reject_loses_no_pixel_witness :
    signedArea2 ⟨5, 5⟩ ⟨6, 5⟩ ⟨5, 6⟩ ≠ 0 ∧
      planarGeometry.computeIntersection sampleTile (triangleBounds ⟨5, 5⟩ ⟨6, 5⟩ ⟨5, 6⟩) = none ∧
      ∀ i j, i < 2 → j < 2 →
        insideTest ⟨5, 5⟩ ⟨6, 5⟩ ⟨5, 6⟩ (pixelCenter planarGeometry sampleTile 2 2 i j) = false := by
  have harea : signedArea2 ⟨5, 5⟩ ⟨6, 5⟩ ⟨5, 6⟩ ≠ 0 := by
    unfold signedArea2
    norm_num
  have hnone : planarGeometry.computeIntersection sampleTile
      (triangleBounds ⟨5, 5⟩ ⟨6, 5⟩ ⟨5, 6⟩) = none := by
    simp [planarGeometry, planarIntersection, sampleTile, triangleBounds]
    norm_num
  refine ⟨harea, hnone, ?_⟩
  intro i j hi hj
  exact (bounding_reject_loses_no_pixel ⟨5, 5⟩ ⟨6, 5⟩ ⟨5, 6⟩ harea).2.2 sampleTile 2 2 i j
    (by simp [sampleTile]) (by simp [sampleTile]) hi hj hnone

/-! ### Classification of the result -/

theorem isMixed_iff (geo : Geometry) (rectangle : GlobeRectangle)
    (cartographicPolygons : List CartographicPolygon) :
    IsMixed geo rectangle cartographicPolygons ↔
      ((geo.withinPolygonsAndReturnIndex rectangle cartographicPolygons).1 = false ∧
        cartographicPolygons.any (fun selection =>
          match selection.boundingRectangle with
          | some boundingRectangle => (geo.computeIntersection rectangle boundingRectangle).isSome
          | none => false) = true) := by
  constructor
  · intro h
    exact ⟨h.1, any_intersects_of_isMixed geo rectangle cartographicPolygons h⟩
  · rintro ⟨hwithin, hany⟩
    rw [List.any_eq_true] at hany
    obtain ⟨polygon, hmem, hp⟩ := hany
    cases hbr : polygon.boundingRectangle with
    | none => simp [hbr] at hp
    | some br =>
      simp only [hbr] at hp
      exact ⟨hwithin, polygon, hmem, br, hbr, hp⟩

/-- Every result of `rasterizePolygons` is either a 1x1 image with the flag
cleared, for a tile that is not Mixed, or an image of the rounded texture size
with the flag set, for a Mixed tile. -/
theorem rasterizePolygons_cases (geo : Geometry) (rectangle : GlobeRectangle)
    (textureSize : DVec2) (cartographicPolygons : List CartographicPolygon)
    (flattenHeights : List Nat) (loaded : LoadedRasterOverlayImage)
    (hres : rasterizePolygons geo rectangle textureSize cartographicPolygons flattenHeights
      = some loaded) :
    (¬ IsMixed geo rectangle cartographicPolygons ∧ loaded.moreDetailAvailable = false ∧
        loaded.image.width = 1 ∧ loaded.image.height = 1) ∨
      (IsMixed geo rectangle cartographicPolygons ∧ loaded.moreDetailAvailable = true ∧
        loaded.image.width = imageWidth textureSize ∧
        loaded.image.height = imageHeight textureSize) := by
  unfold rasterizePolygons at hres
  by_cases hwithin : (geo.withinPolygonsAndReturnIndex rectangle cartographicPolygons).1 = true
  · have hnot : ¬ IsMixed geo rectangle cartographicPolygons := by
      intro h
      rw [h.1] at hwithin
      cases hwithin
    simp only [hwithin, if_true, Option.bind_eq_bind, Option.bind_eq_some] at hres
    obtain ⟨value, -, d1, -, d2, -, d3, -, d4, -, hres⟩ := hres
    cases hres
    exact Or.inl ⟨hnot, rfl, rfl, rfl⟩
  · have hfalse : (geo.withinPolygonsAndReturnIndex rectangle cartographicPolygons).1 = false := by
      simpa using hwithin
    simp only [hfalse, Bool.false_eq_true, if_false] at hres
    split at hres
    · rename_i hout
      have hnot : ¬ IsMixed geo rectangle cartographicPolygons := by
        intro h
        have h2 := ((isMixed_iff geo rectangle cartographicPolygons).1 h).2
        rw [Bool.not_eq_true'] at hout
        exact Bool.noConfusion (hout.symm.trans h2)
      simp only [Option.bind_eq_bind, Option.bind_eq_some] at hres
      obtain ⟨d1, -, d2, -, d3, -, d4, -, hres⟩ := hres
      cases hres
      exact Or.inl ⟨hnot, rfl, rfl, rfl⟩
    · rename_i hout
      have hany : cartographicPolygons.any (fun selection =>
          match selection.boundingRectangle with
          | some boundingRectangle => (geo.computeIntersection rectangle boundingRectangle).isSome
          | none => false) = true := by
        simpa using hout
      have hmixed : IsMixed geo rectangle cartographicPolygons :=
        (isMixed_iff geo rectangle cartographicPolygons).2 ⟨hfalse, hany⟩
      simp only [Option.bind_eq_bind, Option.bind_eq_some] at hres
      obtain ⟨d, -, hres⟩ := hres
      cases hres
      exact Or.inr ⟨hmixed, rfl, rfl, rfl⟩

/-- C11: the "more detail available" flag of every result is `true` exactly
when the tile is Mixed; when it is `false` (tile wholly inside a polygon or
wholly outside all of them) the image is 1x1. Under the index preconditions
(with no `int` overflow) a result is produced. -/
theorem more_detail_flag (geo : Geometry) (rectangle : GlobeRectangle) (textureSize : DVec2)
    (cartographicPolygons : List CartographicPolygon) (flattenHeights : List Nat) :
    (∀ loaded, rasterizePolygons geo rectangle textureSize cartographicPolygons flattenHeights
        = some loaded →
      (loaded.moreDetailAvailable = true ↔ IsMixed geo rectangle cartographicPolygons) ∧
      (¬ IsMixed geo rectangle cartographicPolygons →
        loaded.moreDetailAvailable = false ∧ loaded.image.width = 1 ∧
          loaded.image.height = 1)) ∧
    (IndexPreconditions geo rectangle textureSize cartographicPolygons flattenHeights →
      cartographicPolygons.length ≤ 2 ^ 31 →
      imageWidth textureSize * imageHeight textureSize * 4 < 2 ^ 31 →
      ∃ loaded, rasterizePolygons geo rectangle textureSize cartographicPolygons flattenHeights
        = some loaded) := by
  refine ⟨?_, fun hpre hcount hfit => rasterizePolygons_returns geo rectangle textureSize
    cartographicPolygons flattenHeights hpre hcount hfit⟩
  intro loaded hres
  rcases rasterizePolygons_cases geo rectangle textureSize cartographicPolygons flattenHeights
    loaded hres with ⟨hnot, hflag, hw, hh⟩ | ⟨hmixed, hflag, -, -⟩
  · refine ⟨⟨fun h => ?_, fun h => absurd h hnot⟩, fun _ => ⟨hflag, hw, hh⟩⟩
    rw [hflag] at h
    cases h
  · exact ⟨⟨fun _ => hmixed, fun _ => hflag⟩, fun hnot => absurd hmixed hnot⟩

/-- Instance of `more_detail_flag`: the 2x2 example is Mixed and its flag is
set; the tile `[1, 2] x [0, 2]` is wholly outside and its flag is cleared. -/
theorem more_detail_flag_witness :
    (∃ loaded, rasterizePolygons planarGeometry sampleTile ⟨2, 2⟩ [leftTriangle] [0x42F6E979]
        = some loaded ∧ IsMixed planarGeometry sampleTile [leftTriangle] ∧
      loaded.moreDetailAvailable = true) ∧
    (∃ loaded, rasterizePolygons planarGeometry ⟨1, 0, 2, 2⟩ ⟨2, 2⟩ [leftTriangle] [0x42F6E979]
        = some loaded ∧ (loaded.moreDetailAvailable = true ↔
          IsMixed planarGeometry ⟨1, 0, 2, 2⟩ [leftTriangle]) ∧
      loaded.moreDetailAvailable = false) := by
  have hout : rasterizePolygons planarGeometry ⟨1, 0, 2, 2⟩ ⟨2, 2⟩ [leftTriangle] [0x42F6E979]
      = some ⟨⟨1, 1, 4, 1, [0, 0, 0, 0]⟩, false⟩ := by
    refine rasterizePolygons_outside _ _ _ _ _ ?_ ?_
    · simp [planarGeometry, firstContaining, leftTriangle, cornersInTriangle, triangleVertices,
        insideTest, projAB, projBC, projCA, List.range_succ]
    · intro polygon hmem br hbr
      simp only [List.mem_singleton] at hmem
      subst hmem
      simp only [leftTriangle, Option.some.injEq] at hbr
      subst hbr
      simp [planarGeometry, planarIntersection]
  exact ⟨⟨_, sampleTile_result, sampleTile_isMixed,
      ((more_detail_flag planarGeometry sampleTile ⟨2, 2⟩ [leftTriangle] [0x42F6E979]).1 _
        sampleTile_result).1.2 sampleTile_isMixed⟩,
    ⟨_, hout, ((more_detail_flag planarGeometry ⟨1, 0, 2, 2⟩ ⟨2, 2⟩ [leftTriangle]
        [0x42F6E979]).1 _ hout).1, rfl⟩⟩

/-! ### Polygons without a bounding rectangle -/

/-- Rounding a value that is at most the integer `n` gives at most `n`. -/
theorem glmRound_le (x : ℚ) (n : Int) (h : x ≤ (n : ℚ)) : glmRound x ≤ n := by
  unfold glmRound
  split
  · have hlt : ⌊x + 1 / 2⌋ < n + 1 := by
      rw [Int.floor_lt]
      push_cast
      linarith
    omega
  · rw [Int.ceil_le]
    linarith

/-- Rounding a non-negative value gives a non-negative integer. -/
theorem glmRound_nonneg (x : ℚ) (h : 0 ≤ x) : 0 ≤ glmRound x := by
  unfold glmRound
  rw [if_pos h]
  exact Int.floor_nonneg.2 (by linarith)

/-- C15: with `maximumScreenSpaceError > 0` and `0 < maximumTextureSize` (an
`int32_t`), the texture size handed to the rasterizer is the component-wise
minimum of `targetScreenPixels / maximumScreenSpaceError` and
`maximumTextureSize`; rounded to the nearest integer it does not exceed
`maximumTextureSize`, and neither do the width and height of the image of any
tile, a Mixed tile in particular, whenever the rounded size is representable in
`int32_t` (it is non-negative when the target size is). -/
theorem texture_size_limit (geo : Geometry) (unprojectRectangleSimple : Rectangle → GlobeRectangle)
    (options : RasterOverlayOptions) (polygons : List CartographicPolygon)
    (flattenHeights : List Nat) (overlayTile : RasterOverlayTile)
    (hsse : 0 < options.maximumScreenSpaceError) (hmax : 0 < options.maximumTextureSize)
    (hint : options.maximumTextureSize < 2 ^ 31) :
    (chooseTextureSize overlayTile.targetScreenPixels options).x
        = min (overlayTile.targetScreenPixels.x / options.maximumScreenSpaceError)
            (options.maximumTextureSize : ℚ) ∧
      (chooseTextureSize overlayTile.targetScreenPixels options).y
        = min (overlayTile.targetScreenPixels.y / options.maximumScreenSpaceError)
            (options.maximumTextureSize : ℚ) ∧
      glmRound (chooseTextureSize overlayTile.targetScreenPixels options).x
        ≤ options.maximumTextureSize ∧
      glmRound (chooseTextureSize overlayTile.targetScreenPixels options).y
        ≤ options.maximumTextureSize ∧
      (0 ≤ overlayTile.targetScreenPixels.x →
        0 ≤ glmRound (chooseTextureSize overlayTile.targetScreenPixels options).x) ∧
      (0 ≤ overlayTile.targetScreenPixels.y →
        0 ≤ glmRound (chooseTextureSize overlayTile.targetScreenPixels options).y) ∧
      ∀ loaded rectangle,
        loadTileImage geo unprojectRectangleSimple options polygons flattenHeights overlayTile
          = some (loaded, rectangle) →
        -2 ^ 31 ≤ glmRound (chooseTextureSize overlayTile.targetScreenPixels options).x →
        -2 ^ 31 ≤ glmRound (chooseTextureSize overlayTile.targetScreenPixels options).y →
        rasterizePolygons geo (unprojectRectangleSimple overlayTile.rectangle)
            (chooseTextureSize overlayTile.targetScreenPixels options) polygons flattenHeights
          = some loaded ∧
        loaded.image.width ≤ options.maximumTextureSize ∧
        loaded.image.height ≤ options.maximumTextureSize := by
  have hx : glmRound (chooseTextureSize overlayTile.targetScreenPixels options).x
      ≤ options.maximumTextureSize := glmRound_le _ _ (min_le_right _ _)
  have hy : glmRound (chooseTextureSize overlayTile.targetScreenPixels options).y
      ≤ options.maximumTextureSize := glmRound_le _ _ (min_le_right _ _)
  have hM : (0 : ℚ) ≤ (options.maximumTextureSize : ℚ) := by exact_mod_cast hmax.le
  refine ⟨rfl, rfl, hx, hy,
    fun h => glmRound_nonneg _ (le_min (div_nonneg h hsse.le) hM),
    fun h => glmRound_nonneg _ (le_min (div_nonneg h hsse.le) hM), ?_⟩
  intro loaded rectangle hload hxlow hylow
  unfold loadTileImage at hload
  simp only [Option.bind_eq_bind, Option.bind_eq_some, Option.some.injEq, Prod.mk.injEq] at hload
  obtain ⟨result, hres, hresult, -⟩ := hload
  subst hresult
  refine ⟨hres, ?_⟩
  rcases rasterizePolygons_cases _ _ _ _ _ _ hres with ⟨-, -, hw, hh⟩ | ⟨-, -, hw, hh⟩
  · rw [hw, hh]
    omega
  · rw [hw, hh]
    unfold imageWidth imageHeight
    rw [toInt32_of_range _ hxlow (by omega), toInt32_of_range _ hylow (by omega)]
    exact ⟨hx, hy⟩

/-- Instance of `texture_size_limit`: target size 4 x 4 at screen-space error 2
and maximum texture size 2048 gives the 2x2 example. -/
theorem texture_size_limit_witness :
    chooseTextureSize ⟨4, 4⟩ ⟨2, 2048⟩ = ⟨2, 2⟩ ∧
      ∃ loaded, loadTileImage planarGeometry (fun _ => sampleTile) ⟨2, 2048⟩ [leftTriangle]
          [0x42F6E979] ⟨⟨4, 4⟩, ⟨0, 0, 2, 2⟩⟩ = some (loaded, ⟨0, 0, 2, 2⟩) ∧
        loaded.image.width ≤ 2048 ∧ loaded.image.height ≤ 2048 := by
  have hsize : chooseTextureSize ⟨4, 4⟩ ⟨2, 2048⟩ = ⟨2, 2⟩ := by
    unfold chooseTextureSize
    norm_num
  have hload : loadTileImage planarGeometry (fun _ => sampleTile) ⟨2, 2048⟩ [leftTriangle]
      [0x42F6E979] ⟨⟨4, 4⟩, ⟨0, 0, 2, 2⟩⟩
      = some (⟨⟨2, 2, 4, 1,
          [0x22, 0xF6, 0xE9, 255, 0, 0, 0, 0, 0x22, 0xF6, 0xE9, 255, 0, 0, 0, 0]⟩, true⟩,
        ⟨0, 0, 2, 2⟩) := by
    unfold loadTileImage
    simp only [hsize, sampleTile_result, Option.bind_eq_bind, Option.some_bind]
  have hround : glmRound (2 : ℚ) = 2 := by
    unfold glmRound
    norm_num
  refine ⟨hsize, _, hload, ?_⟩
  have h := (texture_size_limit planarGeometry (fun _ => sampleTile) ⟨2, 2048⟩ [leftTriangle]
    [0x42F6E979] ⟨⟨4, 4⟩, ⟨0, 0, 2, 2⟩⟩ (by norm_num) (by decide) (by decide)).2.2.2.2.2.2 _ _ hload
    (by rw [hsize]; show (-2 ^ 31 : Int) ≤ glmRound 2; rw [hround]; decide)
    (by rw [hsize]; show (-2 ^ 31 : Int) ≤ glmRound 2; rw [hround]; decide)
  exact h.2

end Cesium3DTilesSelection
